import Mathlib

/-!
# Vault: encrypted persistence layer

A shallow embedding of the Go packages `internal/crypto`, `internal/models` and
`internal/storage` of the vault repository, and the properties of its
save/load path.

Conventions of the embedding.

* A Go `[]byte` is a `List UInt8`; a Go `string` is a Lean `String` (the Go
  strings that are valid UTF-8), and `[]byte(s)` is its UTF-8 encoding.
* A Go function returning `(T, error)` returns an `Outcome T`, which also
  records a run-time panic (`crash`), so that slice bounds are checked and
  not assumed.
* Library code the repository calls but does not contain is taken as a
  parameter together with the part of its documented contract that is used:
  the hash core (`HashFn`, for `crypto/sha256`), the AEAD (`Cipher`, for
  `crypto/aes` with `cipher.NewGCM`), the serializer (`JSONCodec`, for
  `encoding/json`), the case mapping (`Unicode`, for `unicode.ToLower`) and
  the path functions (`Filepath`, for `path/filepath`).  `crypto/hmac` and `x/crypto/pbkdf2` are written out over
  the hash core.  Byte slices are unbounded lists: the 64 GiB message limit
  of GCM, beyond which `Seal` panics, is outside the model.
* The operating system (random source, file system) enters as explicit
  arguments holding what each call returned; a function that writes to a
  buffer returns the buffer's new contents.  A reading of the clock
  (`time.Now()`) is an argument `now` of the function that takes it.
-/

namespace vault

/-- A Go byte slice, by value. -/
abbrev Bytes := List UInt8

/-- A Go `error` value: the three sentinels of package crypto, or an error
made by `fmt.Errorf` (or handed back by a library), identified by its text. -/
inductive Error where
  | ErrInvalidKeyLength
  | ErrInvalidNonce
  | ErrDecryption
  | errorf (msg : String)
  deriving DecidableEq, Repr

/-- The text `err.Error()` of an error, which `%w` splices into a wrapping message. -/
def Error.message : Error → String
  | .ErrInvalidKeyLength => "invalid key length"
  | .ErrInvalidNonce => "invalid nonce length"
  | .ErrDecryption => "decryption failed"
  | .errorf msg => msg

/-- What a call of a Go function `func(...) (T, error)` ends in: a value with a
nil error, a non-nil error, or a run-time panic. -/
inductive Outcome (α : Type) where
  | ok (val : α)
  | error (err : Error)
  | crash
  deriving DecidableEq, Repr

/-- The Go slice expression `b[:n]`: panics when `n` exceeds the length. -/
def sliceTo (b : Bytes) (n : Nat) : Option Bytes :=
  if n ≤ b.length then some (b.take n) else none

/-- The Go slice expression `b[n:]`: panics when `n` exceeds the length. -/
def sliceFrom (b : Bytes) (n : Nat) : Option Bytes :=
  if n ≤ b.length then some (b.drop n) else none

namespace crypto

/-- AES-256 key length. -/
def KeyLength : Nat := 32
/-- Salt length for PBKDF2. -/
def SaltLength : Nat := 32
/-- PBKDF2 iterations. -/
def Iterations : Nat := 100000
/-- GCM nonce length. -/
def NonceLength : Nat := 12
/-- The tag length of `cipher.NewGCM` (its `Overhead()`). -/
def TagLength : Nat := 16

/-- The hash core handed to PBKDF2, `sha256.New`: a function from messages to
32-byte digests, with a 64-byte block. -/
structure HashFn where
  sum : Bytes → Bytes
  size_sum : ∀ m, (sum m).length = 32

/-- `sha256.Size`. -/
def HashFn.Size : Nat := 32
/-- `sha256.BlockSize`. -/
def HashFn.BlockSize : Nat := 64

/-- The key block `hmac.New` keeps: a key longer than the hash block is hashed
first, and the key is then copied into a zeroed block-sized buffer. -/
def hmacKeyBlock (h : HashFn) (key : Bytes) : Bytes :=
  let k := if key.length > HashFn.BlockSize then h.sum key else key
  k ++ List.replicate (HashFn.BlockSize - k.length) 0

/-- `hmac.New(h, key)`: the two pads the keyed hash keeps,
`ipad = block ⊕ 0x36…` and `opad = block ⊕ 0x5c…`. -/
def hmacNew (h : HashFn) (key : Bytes) : Bytes × Bytes :=
  let block := hmacKeyBlock h key
  (block.map (fun b => b ^^^ 0x36), block.map (fun b => b ^^^ 0x5c))

/-- `Reset()`, `Write(msg)` and `Sum(nil)` on the hash `hmac.New` returned:
`H(opad ‖ H(ipad ‖ msg))`. -/
def hmacSum (h : HashFn) (pads : Bytes × Bytes) (msg : Bytes) : Bytes :=
  h.sum (pads.2 ++ h.sum (pads.1 ++ msg))

/-- The four big-endian bytes of a PBKDF2 block index. -/
def be32 (i : Nat) : Bytes :=
  [UInt8.ofNat (i >>> 24), UInt8.ofNat (i >>> 16), UInt8.ofNat (i >>> 8), UInt8.ofNat i]

/-- The loop `for x := range U { T[x] ^= U[x] }` of PBKDF2: the new contents
of `T`, index by index of `U`. -/
def xorInto (t u : Bytes) : Bytes :=
  List.zipWith (fun ub tb => tb ^^^ ub) u t

/-- The inner loop of `pbkdf2.Key`, `for n := 2; n <= iter; n++`, with `count`
rounds still to run: each round sets `U = PRF(U)` and then `T ^= U`. -/
def pbkdf2Loop (prf : Bytes → Bytes) : Nat → Bytes → Bytes → Bytes
  | 0, _, t => t
  | count + 1, u, t => pbkdf2Loop prf count (prf u) (xorInto t (prf u))

/-- One output block of `pbkdf2.Key`: `T = U_1 ⊕ U_2 ⊕ … ⊕ U_iter` with
`U_1 = PRF(salt ‖ be32 block)` and `U_n = PRF(U_(n-1))`. -/
def pbkdf2Block (prf : Bytes → Bytes) (salt : Bytes) (iter block : Nat) : Bytes :=
  let u1 := prf (salt ++ be32 block)
  pbkdf2Loop prf (iter - 1) u1 u1

/-- `pbkdf2.Key(password, salt, iter, keyLen, h)` of golang.org/x/crypto. -/
def pbkdf2Key (h : HashFn) (password salt : Bytes) (iter keyLen : Nat) : Bytes :=
  let prf := hmacSum h (hmacNew h password)
  let hashLen := HashFn.Size
  let numBlocks := (keyLen + hashLen - 1) / hashLen
  let dk := (List.range numBlocks).flatMap (fun i => pbkdf2Block prf salt iter (i + 1))
  dk.take keyLen

/-- The Go conversion `[]byte(s)`: the UTF-8 encoding of the string. -/
def stringBytes (s : String) : Bytes :=
  s.toUTF8.data.toList

/-- DeriveKey derives an encryption key from a password using PBKDF2. -/
def DeriveKey (h : HashFn) (password : String) (salt : Bytes) : Bytes :=
  pbkdf2Key h (stringBytes password) salt Iterations KeyLength

/-- The AEAD `cipher.NewGCM(aes.NewCipher(key))` with `additionalData = nil`.
`Seal key nonce plaintext` is what `gcm.Seal(nil, nonce, plaintext, nil)`
returns, the ciphertext followed by the tag; `Open key nonce data` is
`gcm.Open(nil, nonce, data, nil)`, `none` standing for its error.  The laws
are the contract of `cipher.AEAD` for a 32-byte key and a 12-byte nonce. -/
structure Cipher where
  Seal : Bytes → Bytes → Bytes → Bytes
  Open : Bytes → Bytes → Bytes → Option Bytes
  seal_length : ∀ key nonce plaintext, key.length = KeyLength → nonce.length = NonceLength →
    (Seal key nonce plaintext).length = plaintext.length + TagLength
  open_seal : ∀ key nonce plaintext, key.length = KeyLength → nonce.length = NonceLength →
    Open key nonce (Seal key nonce plaintext) = some plaintext
  open_short : ∀ key nonce data, key.length = KeyLength → nonce.length = NonceLength →
    data.length < TagLength → Open key nonce data = none

/-- `aes.NewCipher(key)`: fails with a `KeySizeError` unless the key has 16, 24
or 32 bytes. -/
def aesNewCipher (key : Bytes) : Outcome Unit :=
  if key.length = 16 ∨ key.length = 24 ∨ key.length = 32 then .ok ()
  else .error (.errorf ("crypto/aes: invalid key size " ++ toString key.length))

/-- `cipher.NewGCM(block)` for an AES block: it fails only for a cipher whose
block size is not 16 bytes, so not here. -/
def cipherNewGCM : Outcome Unit :=
  .ok ()

/-- What `io.ReadFull(rand.Reader, buf)` left in a buffer of `n` bytes. -/
structure RandBytes (n : Nat) where
  bytes : Bytes
  length_eq : bytes.length = n

/-- GenerateSalt creates a cryptographically secure random salt; `rnd` is the
result of filling the salt from the random source. -/
def GenerateSalt (rnd : Except Error (RandBytes SaltLength)) : Outcome Bytes :=
  match rnd with
  | .error e => .error (.errorf ("failed to generate salt: " ++ e.message))
  | .ok salt => .ok salt.bytes

/-- Encrypt encrypts plaintext using AES-256-GCM.  `rnd` is the result of
filling the nonce from the random source, `.error` when that read failed. -/
def Encrypt (g : Cipher) (rnd : Except Error (RandBytes NonceLength))
    (plaintext key : Bytes) : Outcome Bytes :=
  if key.length ≠ KeyLength then .error .ErrInvalidKeyLength
  else
    match aesNewCipher key with
    | .error e => .error (.errorf ("failed to create cipher: " ++ e.message))
    | .crash => .crash
    | .ok _ =>
      match cipherNewGCM with
      | .error e => .error (.errorf ("failed to create GCM: " ++ e.message))
      | .crash => .crash
      | .ok _ =>
        match rnd with
        | .error e => .error (.errorf ("failed to generate nonce: " ++ e.message))
        | .ok nonce =>
          -- gcm.Seal(nonce, nonce, plaintext, nil) appends to its first argument
          .ok (nonce.bytes ++ g.Seal key nonce.bytes plaintext)

/-- Decrypt decrypts ciphertext using AES-256-GCM. -/
def Decrypt (g : Cipher) (ciphertext key : Bytes) : Outcome Bytes :=
  if key.length ≠ KeyLength then .error .ErrInvalidKeyLength
  else if ciphertext.length < NonceLength then .error .ErrInvalidNonce
  else
    match aesNewCipher key with
    | .error e => .error (.errorf ("failed to create cipher: " ++ e.message))
    | .crash => .crash
    | .ok _ =>
      match cipherNewGCM with
      | .error e => .error (.errorf ("failed to create GCM: " ++ e.message))
      | .crash => .crash
      | .ok _ =>
        match sliceTo ciphertext NonceLength, sliceFrom ciphertext NonceLength with
        | some nonce, some encrypted =>
          match g.Open key nonce encrypted with
          | none => .error .ErrDecryption
          | some plaintext => .ok plaintext
        | _, _ => .crash

/-- SecureWipe overwrites sensitive data in memory: the contents of the
buffer after the call. -/
def SecureWipe (data : Bytes) : Bytes :=
  -- for i := range data { data[i] = 0 }
  (List.range data.length).foldl (fun data i => data.set i 0) data

end crypto

namespace models

open crypto

/-- A `time.Time`, as an instant on a linear clock. -/
abbrev Time := Int

/-- PasswordEntry represents a single password entry in the vault. -/
structure PasswordEntry where
  ID : String
  Title : String
  Username : String
  Password : String
  URL : String
  Notes : String
  CreatedAt : Time
  UpdatedAt : Time
  deriving DecidableEq, Repr

/-- Vault represents the entire password vault. -/
structure Vault where
  Entries : List PasswordEntry
  Salt : Bytes
  deriving DecidableEq, Repr

/-- The fields of an entry other than its two timestamps: id, title, username,
password, url and notes. -/
def PasswordEntry.content (e : PasswordEntry) :
    String × String × String × String × String × String :=
  (e.ID, e.Title, e.Username, e.Password, e.URL, e.Notes)

/-- NewVault creates a new empty vault with the given salt. -/
def NewVault (salt : Bytes) : Vault :=
  { Entries := [], Salt := salt }

/-- AddEntry adds a new password entry to the vault. -/
def Vault.AddEntry (v : Vault) (entry : PasswordEntry) : Vault :=
  { v with Entries := v.Entries ++ [entry] }

/-- NewPasswordEntry creates a new password entry with generated ID and
timestamps; `id` is what `generateID()` returned and `now` what `time.Now()`
returned. -/
def NewPasswordEntry (id : String) (now : Time) (title username password url notes : String) :
    PasswordEntry :=
  { ID := id, Title := title, Username := username, Password := password, URL := url,
    Notes := notes, CreatedAt := now, UpdatedAt := now }

/-- Update updates the password entry fields and timestamp; `now` is what
`time.Now()` returned. -/
def PasswordEntry.Update (p : PasswordEntry) (title username password url notes : String)
    (now : Time) : PasswordEntry :=
  { p with Title := title, Username := username, Password := password, URL := url,
           Notes := notes, UpdatedAt := now }

/-- The table `unicode.ToLower` of package unicode, which `strings.ToLower`
maps over the runes of a string.  On ASCII it turns `A`–`Z` into `a`–`z` and
leaves every other character alone. -/
structure Unicode where
  ToLower : Char → Char
  toLower_ascii : ∀ c : Char, c.val < 128 → ToLower c = c.toLower

/-- `strings.ToLower(s)`: `unicode.ToLower` applied to every rune. -/
def stringsToLower (u : Unicode) (s : String) : String :=
  String.mk (s.data.map u.ToLower)

/-- `strings.Contains(s, substr)`: `substr` starts at some byte offset of `s`. -/
def stringsContains (s substr : String) : Bool :=
  (stringBytes s).tails.any (fun t => (stringBytes substr).isPrefixOf t)

/-- MatchesSearch checks if the entry matches a search query. -/
def PasswordEntry.MatchesSearch (u : Unicode) (p : PasswordEntry) (query : String) : Bool :=
  let query := stringsToLower u query
  stringsContains (stringsToLower u p.Title) query ||
    stringsContains (stringsToLower u p.Username) query ||
    stringsContains (stringsToLower u p.URL) query ||
    stringsContains (stringsToLower u p.Notes) query

/-- The index `i` at which a loop over the entries first finds
`Entries[i].ID == id`, or `none` when the loop runs to its end. -/
def indexOfID (id : String) : List PasswordEntry → Option Nat
  | [] => none
  | e :: es => if e.ID = id then some 0 else (indexOfID id es).map (fun i => i + 1)

/-- UpdateEntry updates an existing entry in the vault: the vault after the
call and the returned flag. -/
def Vault.UpdateEntry (v : Vault) (id title username password url notes : String)
    (now : Time) : Vault × Bool :=
  match indexOfID id v.Entries with
  | some i =>
    ({ v with Entries :=
        List.modify (fun e => e.Update title username password url notes now) i v.Entries },
      true)
  | none => (v, false)

/-- DeleteEntry removes an entry from the vault by ID: the vault after the
call and the returned flag. -/
def Vault.DeleteEntry (v : Vault) (id : String) : Vault × Bool :=
  match indexOfID id v.Entries with
  | some i =>
    -- v.Entries = append(v.Entries[:i], v.Entries[i+1:]...)
    ({ v with Entries := v.Entries.take i ++ v.Entries.drop (i + 1) }, true)
  | none => (v, false)

/-- GetEntry retrieves an entry by ID: a copy of the first entry with that
id, `none` for `(nil, false)`. -/
def Vault.GetEntry (v : Vault) (id : String) : Option PasswordEntry :=
  v.Entries.find? (fun entry => entry.ID == id)

/-- SearchEntries returns entries that match the search query. -/
def Vault.SearchEntries (u : Unicode) (v : Vault) (query : String) : List PasswordEntry :=
  if query = "" then v.Entries
  else v.Entries.filter (fun entry => entry.MatchesSearch u query)

/-- A call of one of the methods of `*Vault`. -/
inductive Call where
  | AddEntry (entry : PasswordEntry)
  | UpdateEntry (id title username password url notes : String) (now : Time)
  | DeleteEntry (id : String)
  | GetEntry (id : String)
  | SearchEntries (query : String)

/-- The vault after a call of one of its methods.  `GetEntry` and
`SearchEntries` assign nothing to the receiver. -/
def Vault.after (v : Vault) : Call → Vault
  | .AddEntry entry => v.AddEntry entry
  | .UpdateEntry id title username password url notes now =>
    (v.UpdateEntry id title username password url notes now).1
  | .DeleteEntry id => (v.DeleteEntry id).1
  | .GetEntry _ => v
  | .SearchEntries _ => v

/-- Every `entries[i].id` is unique. -/
def Vault.IdsDistinct (v : Vault) : Prop :=
  (v.Entries.map (fun e => e.ID)).Nodup

/-- What the spec says an entry matching a query means: the lower-cased query
occurs as a substring of the lower-cased title, username, url or notes. -/
def specMatches (u : Unicode) (e : PasswordEntry) (query : String) : Prop :=
  stringBytes (stringsToLower u query) <:+: stringBytes (stringsToLower u e.Title) ∨
  stringBytes (stringsToLower u query) <:+: stringBytes (stringsToLower u e.Username) ∨
  stringBytes (stringsToLower u query) <:+: stringBytes (stringsToLower u e.URL) ∨
  stringBytes (stringsToLower u query) <:+: stringBytes (stringsToLower u e.Notes)

/-- Whether an entry matches in the spec's sense can be computed. -/
instance specMatches.decidable (u : Unicode) (e : PasswordEntry) (query : String) :
    Decidable (specMatches u e query) := by
  unfold specMatches
  exact inferInstance

end models

namespace storage

open crypto models

/-- `json.Marshal` and `json.Unmarshal` of package encoding/json at the type
`models.Vault`.  The law is the part of the library's behaviour the store
relies on: decoding what was encoded succeeds and gives back the salt and,
entry by entry and in order, the id, title, username, password, url and notes
(timestamps are left out of the law: a decoded `time.Time` is the same instant
but not the same value). -/
structure JSONCodec where
  Marshal : Vault → Except Error Bytes
  Unmarshal : Bytes → Except Error Vault
  unmarshal_marshal : ∀ v data, Marshal v = .ok data →
    ∃ v', Unmarshal data = .ok v' ∧ v'.Salt = v.Salt ∧
      v'.Entries.map PasswordEntry.content = v.Entries.map PasswordEntry.content

/-- The libraries the store is linked against. -/
structure Libs where
  sha256 : HashFn
  gcm : Cipher
  json : JSONCodec

/-- Storage handles encrypted vault persistence. -/
structure Storage where
  filePath : String
  deriving DecidableEq, Repr

/-- The default vault file name. -/
def DefaultVaultFile : String := "vault.enc"

/-- The functions of package path/filepath the store calls, which depend on
the operating system.  The empty path is not absolute on any of them. -/
structure Filepath where
  IsAbs : String → Bool
  Join : List String → String
  isAbs_empty : IsAbs "" = false

/-- NewStorage creates a new storage instance; `home` is what
`os.UserHomeDir()` returns. -/
def NewStorage (fp : Filepath) (home : Except Error String) (filePath : String) : Storage :=
  if filePath = "" then
    -- use default location in user's home directory
    match home with
    | .error _ => { filePath := DefaultVaultFile }
    | .ok homeDir => { filePath := fp.Join [homeDir, ".vault", DefaultVaultFile] }
  else if !fp.IsAbs filePath then
    -- make relative paths absolute based on home directory
    match home with
    | .ok homeDir => { filePath := fp.Join [homeDir, filePath] }
    | .error _ => { filePath := filePath }
  else { filePath := filePath }

/-- GetVaultPath returns the path to the vault file. -/
def Storage.GetVaultPath (s : Storage) : String :=
  s.filePath

/-- What the operating system answers during one call of `SaveVault`:
the error of `os.MkdirAll` (`none` for nil), the result of reading the nonce
from `rand.Reader`, and the error of `os.WriteFile`. -/
structure SaveCalls where
  mkdirAll : Option Error
  nonce : Except Error (RandBytes NonceLength)
  writeFile : Option Error

/-- The state in which a call of `SaveVault` returns: the returned error
(`ok ()` for nil), the contents at that moment of the buffer `jsonData` and of
the buffer `key` (`none` when the call returned before the buffer existed),
and the bytes now in the vault file when `os.WriteFile` succeeded. -/
structure SaveRun where
  outcome : Outcome Unit
  jsonData : Option Bytes
  key : Option Bytes
  written : Option Bytes

/-- EnsureVaultDir creates the vault directory if it doesn't exist. -/
def EnsureVaultDir (mkdirAll : Option Error) : Outcome Unit :=
  match mkdirAll with
  | some e => .error (.errorf ("failed to create vault directory: " ++ e.message))
  | none => .ok ()

/-- The part of `SaveVault` that runs once the key is derived, under the
deferred `crypto.SecureWipe(key)`: encrypt, frame, write, wipe the plaintext.
Its result is the state in which the whole call returns.  The deferred wipe of
the key runs on every return; `crypto.SecureWipe(jsonData)` is the last
statement before `return nil`. -/
def saveWithKey (w : Libs) (calls : SaveCalls) (vault : Vault) (jsonData key : Bytes) :
    SaveRun :=
  match Encrypt w.gcm calls.nonce jsonData key with
  | .error e =>
    { outcome := .error (.errorf ("failed to encrypt vault: " ++ e.message)),
      jsonData := some jsonData, key := some (SecureWipe key), written := none }
  | .crash =>
    { outcome := .crash, jsonData := some jsonData, key := some (SecureWipe key),
      written := none }
  | .ok encryptedData =>
    -- the file format: [32-byte salt][encrypted data]
    let fileData := vault.Salt ++ encryptedData
    match calls.writeFile with
    | some e =>
      { outcome := .error (.errorf ("failed to write vault file: " ++ e.message)),
        jsonData := some jsonData, key := some (SecureWipe key), written := none }
    | none =>
      { outcome := .ok (), jsonData := some (SecureWipe jsonData),
        key := some (SecureWipe key), written := some fileData }

/-- SaveVault encrypts and saves the vault to disk. -/
def SaveVault (w : Libs) (calls : SaveCalls) (vault : Vault) (masterPassword : String) :
    SaveRun :=
  match EnsureVaultDir calls.mkdirAll with
  | .error e => { outcome := .error e, jsonData := none, key := none, written := none }
  | .crash => { outcome := .crash, jsonData := none, key := none, written := none }
  | .ok _ =>
    match w.json.Marshal vault with
    | .error e =>
      { outcome := .error (.errorf ("failed to marshal vault: " ++ e.message)),
        jsonData := none, key := none, written := none }
    | .ok jsonData =>
      let key := DeriveKey w.sha256 masterPassword vault.Salt
      saveWithKey w calls vault jsonData key

/-- The vault file as `LoadVault` finds it: `os.Stat` reports that it does not
exist; it exists and `os.ReadFile` fails; or it is read. -/
inductive FileState where
  | absent
  | unreadable (err : Error)
  | present (data : Bytes)

/-- The steps of `LoadVault` that touch the file data or a secret. -/
inductive Op where
  | slice
  | deriveKey
  | decrypt
  | unmarshal
  deriving DecidableEq, Repr

/-- The state in which a call of `LoadVault` returns: what it returned, the
steps it took in order, and the contents at return of its buffers `jsonData`
and `key` (`none` when the buffer never existed). -/
structure LoadRun where
  outcome : Outcome Vault
  trace : List Op
  jsonData : Option Bytes
  key : Option Bytes

/-- The part of `LoadVault` that runs once the key is derived, under the
deferred `crypto.SecureWipe(key)`: decrypt, parse, wipe the plaintext.  Its
result is the state in which the whole call returns, so the trace starts with
the two slice expressions and the key derivation that came before. -/
def loadWithKey (w : Libs) (encryptedData key : Bytes) : LoadRun :=
  match Decrypt w.gcm encryptedData key with
  | .error _ =>
    { outcome := .error (.errorf "invalid master password or corrupted vault"),
      trace := [.slice, .slice, .deriveKey, .decrypt],
      jsonData := none, key := some (SecureWipe key) }
  | .crash =>
    { outcome := .crash, trace := [.slice, .slice, .deriveKey, .decrypt],
      jsonData := none, key := some (SecureWipe key) }
  | .ok jsonData =>
    match w.json.Unmarshal jsonData with
    | .error _ =>
      { outcome := .error (.errorf "corrupted vault data"),
        trace := [.slice, .slice, .deriveKey, .decrypt, .unmarshal],
        jsonData := some (SecureWipe jsonData), key := some (SecureWipe key) }
    | .ok vault =>
      { outcome := .ok vault,
        trace := [.slice, .slice, .deriveKey, .decrypt, .unmarshal],
        jsonData := some (SecureWipe jsonData), key := some (SecureWipe key) }

/-- LoadVault loads and decrypts the vault from disk. -/
def LoadVault (w : Libs) (s : Storage) (file : FileState) (masterPassword : String) :
    LoadRun :=
  match file with
  | .absent =>
    { outcome := .error (.errorf ("vault file does not exist: " ++ s.filePath)),
      trace := [], jsonData := none, key := none }
  | .unreadable e =>
    { outcome := .error (.errorf ("failed to read vault file: " ++ e.message)),
      trace := [], jsonData := none, key := none }
  | .present fileData =>
    -- file format: [32-byte salt][encrypted data]
    if fileData.length < SaltLength then
      { outcome := .error (.errorf "invalid vault file format"),
        trace := [], jsonData := none, key := none }
    else
      match sliceTo fileData SaltLength, sliceFrom fileData SaltLength with
      | some salt, some encryptedData =>
        let key := DeriveKey w.sha256 masterPassword salt
        loadWithKey w encryptedData key
      | _, _ => { outcome := .crash, trace := [.slice], jsonData := none, key := none }

/-- The state in which `CreateNewVault` returns: what it returned and, when it
got as far as saving, the run of `SaveVault`. -/
structure CreateRun where
  outcome : Outcome Vault
  save : Option SaveRun

/-- CreateNewVault creates a new encrypted vault with a random salt. -/
def CreateNewVault (w : Libs) (rnd : Except Error (RandBytes SaltLength))
    (calls : SaveCalls) (masterPassword : String) : CreateRun :=
  match GenerateSalt rnd with
  | .error e =>
    { outcome := .error (.errorf ("failed to generate salt: " ++ e.message)), save := none }
  | .crash => { outcome := .crash, save := none }
  | .ok salt =>
    let vault := NewVault salt
    let run := SaveVault w calls vault masterPassword
    match run.outcome with
    | .error e =>
      { outcome := .error (.errorf ("failed to save new vault: " ++ e.message)),
        save := some run }
    | .crash => { outcome := .crash, save := some run }
    | .ok _ => { outcome := .ok vault, save := some run }

end storage

/-! ## Package crypto: lemmas -/

namespace crypto

theorem xorInto_length (t u : Bytes) : (xorInto t u).length = min u.length t.length := by
  simp [xorInto]

theorem pbkdf2Loop_length (prf : Bytes → Bytes) (n : Nat) (hprf : ∀ m, (prf m).length = n)
    (count : Nat) (u t : Bytes) (ht : t.length = n) :
    (pbkdf2Loop prf count u t).length = n := by
  induction count generalizing u t with
  | zero => simpa [pbkdf2Loop] using ht
  | succ count ih =>
    rw [pbkdf2Loop]
    apply ih
    simp [xorInto_length, ht, hprf]

theorem pbkdf2Block_length (prf : Bytes → Bytes) (n : Nat) (hprf : ∀ m, (prf m).length = n)
    (salt : Bytes) (iter block : Nat) : (pbkdf2Block prf salt iter block).length = n :=
  pbkdf2Loop_length prf n hprf _ _ _ (hprf _)

theorem hmacSum_length (h : HashFn) (pads : Bytes × Bytes) (msg : Bytes) :
    (hmacSum h pads msg).length = 32 := by
  simp [hmacSum, h.size_sum]

theorem DeriveKey_length (h : HashFn) (password : String) (salt : Bytes) :
    (DeriveKey h password salt).length = KeyLength := by
  have hb := pbkdf2Block_length (hmacSum h (hmacNew h (stringBytes password))) 32
    (hmacSum_length h _) salt Iterations 1
  have hr : List.range ((KeyLength + HashFn.Size - 1) / HashFn.Size) = [0] := by decide
  simp only [DeriveKey, pbkdf2Key, hr, List.flatMap_cons, List.flatMap_nil, List.append_nil,
    List.length_take, hb]
  decide

theorem stringBytes_append (s t : String) :
    stringBytes (s ++ t) = stringBytes s ++ stringBytes t := by
  simp [stringBytes, String.toUTF8, String.data_append, List.flatMap_append]

/-- `hmac.New` pads a short key with zero bytes, so a key and the same key
followed by a zero byte give the same key block. -/
theorem hmacKeyBlock_append_zero (h : HashFn) (key : Bytes)
    (hlen : key.length < HashFn.BlockSize) :
    hmacKeyBlock h (key ++ [0]) = hmacKeyBlock h key := by
  have h1 : ¬ key.length + 1 > HashFn.BlockSize := by omega
  have h2 : ¬ key.length > HashFn.BlockSize := by omega
  have h3 : HashFn.BlockSize - key.length = (HashFn.BlockSize - (key.length + 1)) + 1 := by
    omega
  simp only [hmacKeyBlock, List.length_append, List.length_singleton, h1, h2, if_false]
  rw [h3, List.replicate_succ, List.append_assoc]
  rfl

/-- The derived key does not change when a NUL character is appended to a
password whose encoding is shorter than the hash block. -/
theorem DeriveKey_append_nul (h : HashFn) (password : String) (salt : Bytes)
    (hlen : (stringBytes password).length < HashFn.BlockSize) :
    DeriveKey h (password ++ "\x00") salt = DeriveKey h password salt := by
  have hz : stringBytes "\x00" = [0] := by decide
  have hpads : hmacNew h (stringBytes (password ++ "\x00")) = hmacNew h (stringBytes password) := by
    simp only [hmacNew, stringBytes_append, hz, hmacKeyBlock_append_zero h _ hlen]
  unfold DeriveKey pbkdf2Key
  rw [hpads]

theorem aesNewCipher_ok (key : Bytes) (hk : key.length = KeyLength) :
    aesNewCipher key = .ok () := by
  simp [aesNewCipher, hk, KeyLength]

theorem Encrypt_ok (g : Cipher) (nonce : RandBytes NonceLength) (plaintext key : Bytes)
    (hk : key.length = KeyLength) :
    Encrypt g (.ok nonce) plaintext key = .ok (nonce.bytes ++ g.Seal key nonce.bytes plaintext) := by
  simp [Encrypt, hk, aesNewCipher_ok, cipherNewGCM]

theorem Decrypt_framed (g : Cipher) (nonce data key : Bytes)
    (hk : key.length = KeyLength) (hn : nonce.length = NonceLength) :
    Decrypt g (nonce ++ data) key =
      match g.Open key nonce data with
      | none => .error .ErrDecryption
      | some plaintext => .ok plaintext := by
  have h1 : ¬ (nonce ++ data).length < NonceLength := by simp [hn]
  have h2 : sliceTo (nonce ++ data) NonceLength = some nonce := by
    have hle : NonceLength ≤ (nonce ++ data).length := by simp [hn]
    simp only [sliceTo, hle, if_true, List.take_left' hn]
  have h3 : sliceFrom (nonce ++ data) NonceLength = some data := by
    have hle : NonceLength ≤ (nonce ++ data).length := by simp [hn]
    simp only [sliceFrom, hle, if_true, List.drop_left' hn]
  simp only [Decrypt, hk, ne_eq, not_true_eq_false, if_false, h1, aesNewCipher_ok _ hk,
    cipherNewGCM, h2, h3]

theorem Decrypt_Encrypt (g : Cipher) (nonce : RandBytes NonceLength) (plaintext key : Bytes)
    (hk : key.length = KeyLength) :
    Decrypt g (nonce.bytes ++ g.Seal key nonce.bytes plaintext) key = .ok plaintext := by
  rw [Decrypt_framed g _ _ _ hk nonce.length_eq, g.open_seal _ _ _ hk nonce.length_eq]

theorem Encrypt_rand_error (g : Cipher) (e : Error) (plaintext key : Bytes)
    (hk : key.length = KeyLength) :
    Encrypt g (.error e) plaintext key =
      .error (.errorf ("failed to generate nonce: " ++ e.message)) := by
  simp [Encrypt, hk, aesNewCipher_ok, cipherNewGCM]

theorem Decrypt_short (g : Cipher) (ciphertext key : Bytes) (hk : key.length = KeyLength)
    (hlen : ciphertext.length < NonceLength) :
    Decrypt g ciphertext key = .error .ErrInvalidNonce := by
  simp only [Decrypt, hk, ne_eq, not_true_eq_false, if_false, hlen, if_true]

theorem Decrypt_bad_key (g : Cipher) (ciphertext key : Bytes) (hk : key.length ≠ KeyLength) :
    Decrypt g ciphertext key = .error .ErrInvalidKeyLength := by
  simp only [Decrypt, hk, ne_eq, not_false_eq_true, if_true]

/-- The loop of `SecureWipe` after `n` rounds: the first `n` bytes are zero,
the rest is still as it was. -/
theorem wipeLoop_rounds (data : Bytes) (n : Nat) (hn : n ≤ data.length) :
    (List.range n).foldl (fun data i => data.set i 0) data =
      List.replicate n 0 ++ data.drop n := by
  induction n with
  | zero => rfl
  | succ n ih =>
    have hlt : n < data.length := hn
    rw [List.range_succ, List.foldl_append, ih (Nat.le_of_lt hlt)]
    simp only [List.foldl_cons, List.foldl_nil]
    rw [List.drop_eq_getElem_cons hlt,
      List.set_append_right _ _ (Nat.le_of_eq (List.length_replicate _ _)),
      List.length_replicate, Nat.sub_self, List.set_cons_zero, List.replicate_succ',
      List.append_assoc, List.singleton_append]

theorem SecureWipe_eq_replicate (data : Bytes) :
    SecureWipe data = List.replicate data.length 0 := by
  unfold SecureWipe
  rw [wipeLoop_rounds data data.length (Nat.le_refl _), List.drop_length, List.append_nil]

theorem SecureWipe_eq_map (data : Bytes) : SecureWipe data = data.map (fun _ => 0) := by
  rw [SecureWipe_eq_replicate]
  induction data with
  | nil => rfl
  | cons b bs ih => rw [List.length_cons, List.replicate_succ, List.map_cons, ih]

/-- `Decrypt` of an input that holds a nonce but is too short to hold a tag
after it: `gcm.Open` rejects it. -/
theorem Decrypt_no_tag (g : Cipher) (ciphertext key : Bytes) (hk : key.length = KeyLength)
    (h1 : NonceLength ≤ ciphertext.length)
    (h2 : ciphertext.length < NonceLength + TagLength) :
    Decrypt g ciphertext key = .error .ErrDecryption := by
  have hn : (ciphertext.take NonceLength).length = NonceLength := by
    rw [List.length_take]
    exact Nat.min_eq_left h1
  have hd : (ciphertext.drop NonceLength).length < TagLength := by
    rw [List.length_drop]
    omega
  have hsplit : ciphertext = ciphertext.take NonceLength ++ ciphertext.drop NonceLength :=
    (List.take_append_drop NonceLength ciphertext).symm
  rw [hsplit, Decrypt_framed g _ _ key hk hn, g.open_short key _ _ hk hn hd]

/-- Two different passwords can derive the same key: "a" and "a" followed by a
NUL byte are different strings, HMAC pads both to the same key block, and data
encrypted under the key of the first decrypts under the key of the second, to
the original plaintext, whatever the hash core, the cipher, the salt and the
nonce. -/
theorem Decrypt_nul_padded_password :
    ("a\x00" : String) ≠ "a" ∧
    ∀ (h : HashFn) (g : Cipher) (nonce : RandBytes NonceLength) (salt plaintext : Bytes),
      ∃ c, Encrypt g (.ok nonce) plaintext (DeriveKey h "a" salt) = .ok c ∧
        Decrypt g c (DeriveKey h "a\x00" salt) = .ok plaintext := by
  refine ⟨by decide, fun h g nonce salt plaintext => ?_⟩
  have hk := DeriveKey_length h "a" salt
  have hs : ("a\x00" : String) = "a" ++ "\x00" := by decide
  have hkey : DeriveKey h "a\x00" salt = DeriveKey h "a" salt := by
    rw [hs]
    exact DeriveKey_append_nul h "a" salt (by decide)
  refine ⟨_, Encrypt_ok g nonce plaintext _ hk, ?_⟩
  rw [hkey]
  exact Decrypt_Encrypt g nonce plaintext _ hk

/-- Decrypting under the key of another password what was encrypted under the
key of one: the outcome is the answer of `gcm.Open` under the second key,
`ErrDecryption` when it rejects, and the original plaintext when both
passwords derive the same key. -/
theorem Decrypt_other_password (h : HashFn) (g : Cipher) (nonce : RandBytes NonceLength)
    (salt plaintext : Bytes) (P P2 : String) :
    ∃ c, Encrypt g (.ok nonce) plaintext (DeriveKey h P salt) = .ok c ∧
      (Decrypt g c (DeriveKey h P2 salt) = .error .ErrDecryption ↔
        g.Open (DeriveKey h P2 salt) nonce.bytes
          (g.Seal (DeriveKey h P salt) nonce.bytes plaintext) = none) ∧
      (DeriveKey h P2 salt = DeriveKey h P salt →
        Decrypt g c (DeriveKey h P2 salt) = .ok plaintext) := by
  have hk := DeriveKey_length h P salt
  have hk2 := DeriveKey_length h P2 salt
  refine ⟨_, Encrypt_ok g nonce plaintext _ hk, ?_, ?_⟩
  · rw [Decrypt_framed g _ _ _ hk2 nonce.length_eq]
    cases hop : g.Open (DeriveKey h P2 salt) nonce.bytes
        (g.Seal (DeriveKey h P salt) nonce.bytes plaintext) with
    | none => exact ⟨fun _ => rfl, fun _ => rfl⟩
    | some p => exact ⟨fun hd => (by cases hd), fun hn => (by cases hn)⟩
  · intro hkey
    rw [hkey]
    exact Decrypt_Encrypt g nonce plaintext _ hk

/-- No AEAD whose sealed data is 16 bytes longer than the plaintext tells all
32-byte keys apart: the 32-byte keys outnumber the 16-byte sealings of the
empty plaintext, so for every nonce two different keys seal it to the same
bytes, and what `Encrypt` produced under one `Decrypt` accepts under the
other. -/
theorem Decrypt_accepts_another_key (g : Cipher) (nonce : RandBytes NonceLength) :
    ∃ key key2 : Bytes, key.length = KeyLength ∧ key2.length = KeyLength ∧ key2 ≠ key ∧
      ∃ c, Encrypt g (.ok nonce) [] key = .ok c ∧ Decrypt g c key2 = .ok [] := by
  have e : UInt8 ≃ Fin 256 :=
    { toFun := fun b => ⟨b.toNat, UInt8.toNat_lt b⟩
      invFun := fun n => UInt8.ofNat n
      left_inv := by
        intro b
        cases b with
        | mk v =>
          apply UInt8.ext
          simp [UInt8.ofNat, UInt8.toNat, Fin.ofNat]
      right_inv := by
        intro n
        apply Fin.ext
        show (UInt8.ofNat n).toNat = n
        have hmod : (n : Nat) % 2 ^ 8 = n := Nat.mod_eq_of_lt n.isLt
        simp [UInt8.ofNat, UInt8.toNat, hmod] }
  haveI : Fintype UInt8 := Fintype.ofEquiv (Fin 256) e.symm
  have hc : Fintype.card UInt8 = 256 := by
    rw [Fintype.card_congr e, Fintype.card_fin]
  have hlen : ∀ k : Bytes, k.length = KeyLength →
      (g.Seal k nonce.bytes []).length = TagLength := by
    intro k hk
    rw [g.seal_length k nonce.bytes [] hk nonce.length_eq, List.length_nil, Nat.zero_add]
  have hcard : Fintype.card (Mathlib.Vector UInt8 TagLength) <
      Fintype.card (Mathlib.Vector UInt8 KeyLength) := by
    rw [card_vector, card_vector, hc, KeyLength, TagLength]
    norm_num
  let F : Mathlib.Vector UInt8 KeyLength → Mathlib.Vector UInt8 TagLength :=
    fun v => ⟨g.Seal v.1 nonce.bytes [], hlen v.1 v.2⟩
  obtain ⟨a, b, hab, hF⟩ := Fintype.exists_ne_map_eq_of_card_lt F hcard
  have hseal : g.Seal a.1 nonce.bytes [] = g.Seal b.1 nonce.bytes [] :=
    congrArg Subtype.val hF
  refine ⟨a.1, b.1, a.2, b.2, fun hba => hab (Subtype.ext hba.symm), _,
    Encrypt_ok g nonce [] a.1 a.2, ?_⟩
  rw [hseal]
  exact Decrypt_Encrypt g nonce [] b.1 b.2

end crypto

/-! ## Package models: lemmas -/

namespace models

open crypto

theorem indexOfID_eq_none_iff (id : String) (l : List PasswordEntry) :
    indexOfID id l = none ↔ ∀ x ∈ l, x.ID ≠ id := by
  induction l with
  | nil => simp [indexOfID]
  | cons e es ih =>
    by_cases h : e.ID = id
    · simp [indexOfID, h]
    · simp [indexOfID, h, ih]

/-- Where the loop stops: the entry found is the first with the id. -/
theorem indexOfID_eq_some (id : String) (l : List PasswordEntry) (i : Nat)
    (h : indexOfID id l = some i) :
    ∃ pre e post, l = pre ++ e :: post ∧ pre.length = i ∧ e.ID = id ∧
      ∀ x ∈ pre, x.ID ≠ id := by
  induction l generalizing i with
  | nil => simp [indexOfID] at h
  | cons a es ih =>
    by_cases ha : a.ID = id
    · simp only [indexOfID, ha, if_true, Option.some.injEq] at h
      exact ⟨[], a, es, rfl, by simpa using h, ha, by simp⟩
    · simp only [indexOfID, ha, if_false, Option.map_eq_some'] at h
      obtain ⟨j, hj, hji⟩ := h
      obtain ⟨pre, e, post, hl, hlen, he, hpre⟩ := ih j hj
      refine ⟨a :: pre, e, post, by rw [hl]; rfl, by simp [hlen, hji], he, ?_⟩
      intro x hx
      rcases List.mem_cons.mp hx with rfl | hx
      · exact ha
      · exact hpre x hx

theorem indexOfID_isSome (id : String) (l : List PasswordEntry)
    (h : ∃ e ∈ l, e.ID = id) : ∃ i, indexOfID id l = some i := by
  cases hi : indexOfID id l with
  | some i => exact ⟨i, rfl⟩
  | none =>
    obtain ⟨e, he, hid⟩ := h
    exact absurd hid ((indexOfID_eq_none_iff id l).mp hi e he)

theorem modify_length_append (f : PasswordEntry → PasswordEntry)
    (pre : List PasswordEntry) (e : PasswordEntry) (post : List PasswordEntry) :
    List.modify f pre.length (pre ++ e :: post) = pre ++ f e :: post := by
  induction pre with
  | nil => rfl
  | cons a pre ih => simp [List.modify_succ_cons, ih]

theorem take_drop_length_append (pre : List PasswordEntry) (e : PasswordEntry)
    (post : List PasswordEntry) :
    (pre ++ e :: post).take pre.length ++ (pre ++ e :: post).drop (pre.length + 1) =
      pre ++ post := by
  have h1 : (pre ++ e :: post).take pre.length = pre := List.take_left' rfl
  have h2 : (pre ++ e :: post).drop (pre.length + 1) = post := by
    rw [← List.drop_drop, List.drop_left' rfl]
    rfl
  rw [h1, h2]

theorem find?_id_eq_none (id : String) (l : List PasswordEntry) (h : ∀ x ∈ l, x.ID ≠ id) :
    l.find? (fun entry => entry.ID == id) = none := by
  simpa using h

theorem stringsContains_iff (s substr : String) :
    stringsContains s substr = true ↔ stringBytes substr <:+: stringBytes s := by
  simp only [stringsContains, List.any_eq_true, List.mem_tails, List.isPrefixOf_iff_prefix,
    List.infix_iff_prefix_suffix]
  constructor
  · rintro ⟨t, ht, hp⟩
    exact ⟨t, hp, ht⟩
  · rintro ⟨t, hp, ht⟩
    exact ⟨t, ht, hp⟩

/-- The code's test and the spec's wording agree. -/
theorem MatchesSearch_iff (u : Unicode) (e : PasswordEntry) (query : String) :
    e.MatchesSearch u query = true ↔ specMatches u e query := by
  simp only [PasswordEntry.MatchesSearch, specMatches, Bool.or_eq_true, stringsContains_iff,
    or_assoc]

theorem stringsToLower_empty (u : Unicode) : stringsToLower u "" = "" := by
  rfl

/-- The empty query matches every entry. -/
theorem MatchesSearch_empty (u : Unicode) (e : PasswordEntry) :
    e.MatchesSearch u "" = true := by
  rw [MatchesSearch_iff]
  left
  rw [stringsToLower_empty]
  exact ⟨[], stringBytes (stringsToLower u e.Title), rfl⟩

theorem stringsToLower_GMAIL (u : Unicode) : stringsToLower u "GMAIL" = "gmail" := by
  have hd : ("GMAIL" : String).data = ['G', 'M', 'A', 'I', 'L'] := rfl
  simp only [stringsToLower, hd, List.map_cons, List.map_nil,
    u.toLower_ascii 'G' (by decide), u.toLower_ascii 'M' (by decide),
    u.toLower_ascii 'A' (by decide), u.toLower_ascii 'I' (by decide),
    u.toLower_ascii 'L' (by decide)]
  decide

theorem stringsToLower_gmail_account (u : Unicode) :
    stringsToLower u "gmail account" = "gmail account" := by
  have hd : ("gmail account" : String).data =
      ['g', 'm', 'a', 'i', 'l', ' ', 'a', 'c', 'c', 'o', 'u', 'n', 't'] := rfl
  simp only [stringsToLower, hd, List.map_cons, List.map_nil,
    u.toLower_ascii 'g' (by decide), u.toLower_ascii 'm' (by decide),
    u.toLower_ascii 'a' (by decide), u.toLower_ascii 'i' (by decide),
    u.toLower_ascii 'l' (by decide), u.toLower_ascii ' ' (by decide),
    u.toLower_ascii 'c' (by decide), u.toLower_ascii 'o' (by decide),
    u.toLower_ascii 'u' (by decide), u.toLower_ascii 'n' (by decide),
    u.toLower_ascii 't' (by decide)]
  decide

/-- `DeleteEntry` when the loop finds the id. -/
theorem DeleteEntry_found (v : Vault) (id : String) (h : ∃ e ∈ v.Entries, e.ID = id) :
    ∃ pre e post, v.Entries = pre ++ e :: post ∧ e.ID = id ∧ (∀ x ∈ pre, x.ID ≠ id) ∧
      v.DeleteEntry id = ({ v with Entries := pre ++ post }, true) := by
  obtain ⟨i, hi⟩ := indexOfID_isSome id v.Entries h
  obtain ⟨pre, e, post, hl, hlen, he, hpre⟩ := indexOfID_eq_some id v.Entries i hi
  refine ⟨pre, e, post, hl, he, hpre, ?_⟩
  simp only [Vault.DeleteEntry, hi]
  rw [← hlen, hl, take_drop_length_append]

/-- `DeleteEntry` when no entry has the id. -/
theorem DeleteEntry_missing (v : Vault) (id : String) (h : ∀ e ∈ v.Entries, e.ID ≠ id) :
    v.DeleteEntry id = (v, false) := by
  simp only [Vault.DeleteEntry, (indexOfID_eq_none_iff id v.Entries).mpr h]

/-- `UpdateEntry` when the loop finds the id. -/
theorem UpdateEntry_found (v : Vault) (id title username password url notes : String)
    (now : Time) (h : ∃ e ∈ v.Entries, e.ID = id) :
    ∃ pre e post, v.Entries = pre ++ e :: post ∧ e.ID = id ∧ (∀ x ∈ pre, x.ID ≠ id) ∧
      v.UpdateEntry id title username password url notes now =
        ({ v with Entries := pre ++ e.Update title username password url notes now :: post },
          true) := by
  obtain ⟨i, hi⟩ := indexOfID_isSome id v.Entries h
  obtain ⟨pre, e, post, hl, hlen, he, hpre⟩ := indexOfID_eq_some id v.Entries i hi
  refine ⟨pre, e, post, hl, he, hpre, ?_⟩
  simp only [Vault.UpdateEntry, hi]
  rw [← hlen, hl, modify_length_append]

/-- `UpdateEntry` when no entry has the id. -/
theorem UpdateEntry_missing (v : Vault) (id title username password url notes : String)
    (now : Time) (h : ∀ e ∈ v.Entries, e.ID ≠ id) :
    v.UpdateEntry id title username password url notes now = (v, false) := by
  simp only [Vault.UpdateEntry, (indexOfID_eq_none_iff id v.Entries).mpr h]

end models

/-! ## Package storage: lemmas -/

namespace storage

open crypto models

theorem saveWithKey_success (w : Libs) (calls : SaveCalls) (vault : Vault)
    (j key : Bytes) (n : RandBytes NonceLength) (hk : key.length = KeyLength)
    (h3 : calls.nonce = .ok n) (h4 : calls.writeFile = none) :
    saveWithKey w calls vault j key =
      { outcome := .ok (), jsonData := some (SecureWipe j), key := some (SecureWipe key),
        written := some (vault.Salt ++ (n.bytes ++ w.gcm.Seal key n.bytes j)) } := by
  simp only [saveWithKey, h3, h4, Encrypt_ok w.gcm n j key hk]

theorem saveWithKey_write_failure (w : Libs) (calls : SaveCalls) (vault : Vault)
    (j key : Bytes) (n : RandBytes NonceLength) (e : Error) (hk : key.length = KeyLength)
    (h3 : calls.nonce = .ok n) (h4 : calls.writeFile = some e) :
    saveWithKey w calls vault j key =
      { outcome := .error (.errorf ("failed to write vault file: " ++ e.message)),
        jsonData := some j, key := some (SecureWipe key), written := none } := by
  simp only [saveWithKey, h3, h4, Encrypt_ok w.gcm n j key hk]

theorem saveWithKey_nonce_failure (w : Libs) (calls : SaveCalls) (vault : Vault)
    (j key : Bytes) (e : Error) (hk : key.length = KeyLength)
    (h3 : calls.nonce = .error e) :
    saveWithKey w calls vault j key =
      { outcome := .error (.errorf ("failed to encrypt vault: " ++
          ("failed to generate nonce: " ++ e.message))),
        jsonData := some j, key := some (SecureWipe key), written := none } := by
  simp only [saveWithKey, h3, Encrypt_rand_error w.gcm e j key hk, Error.message]

/-- `SaveVault` once the directory exists and the vault is serialized. -/
theorem SaveVault_eq (w : Libs) (calls : SaveCalls) (vault : Vault) (P : String)
    (j : Bytes) (h1 : calls.mkdirAll = none) (h2 : w.json.Marshal vault = .ok j) :
    SaveVault w calls vault P =
      saveWithKey w calls vault j (DeriveKey w.sha256 P vault.Salt) := by
  rw [SaveVault, h1, h2]
  rfl

/-- A run of `SaveVault` in which every call succeeds. -/
theorem SaveVault_success (w : Libs) (calls : SaveCalls) (vault : Vault) (P : String)
    (j : Bytes) (n : RandBytes NonceLength)
    (h1 : calls.mkdirAll = none) (h2 : w.json.Marshal vault = .ok j)
    (h3 : calls.nonce = .ok n) (h4 : calls.writeFile = none) :
    SaveVault w calls vault P =
      { outcome := .ok (), jsonData := some (SecureWipe j),
        key := some (SecureWipe (DeriveKey w.sha256 P vault.Salt)),
        written := some (vault.Salt ++ (n.bytes ++
          w.gcm.Seal (DeriveKey w.sha256 P vault.Salt) n.bytes j)) } := by
  rw [SaveVault_eq w calls vault P j h1 h2]
  exact saveWithKey_success w calls vault j _ n (DeriveKey_length _ _ _) h3 h4

/-- A run of `SaveVault` in which only `os.WriteFile` fails. -/
theorem SaveVault_write_failure (w : Libs) (calls : SaveCalls) (vault : Vault) (P : String)
    (j : Bytes) (n : RandBytes NonceLength) (e : Error)
    (h1 : calls.mkdirAll = none) (h2 : w.json.Marshal vault = .ok j)
    (h3 : calls.nonce = .ok n) (h4 : calls.writeFile = some e) :
    SaveVault w calls vault P =
      { outcome := .error (.errorf ("failed to write vault file: " ++ e.message)),
        jsonData := some j,
        key := some (SecureWipe (DeriveKey w.sha256 P vault.Salt)),
        written := none } := by
  rw [SaveVault_eq w calls vault P j h1 h2]
  exact saveWithKey_write_failure w calls vault j _ n e (DeriveKey_length _ _ _) h3 h4

/-- A run of `SaveVault` in which reading the nonce fails. -/
theorem SaveVault_nonce_failure (w : Libs) (calls : SaveCalls) (vault : Vault) (P : String)
    (j : Bytes) (e : Error)
    (h1 : calls.mkdirAll = none) (h2 : w.json.Marshal vault = .ok j)
    (h3 : calls.nonce = .error e) :
    SaveVault w calls vault P =
      { outcome := .error (.errorf ("failed to encrypt vault: " ++
          ("failed to generate nonce: " ++ e.message))),
        jsonData := some j,
        key := some (SecureWipe (DeriveKey w.sha256 P vault.Salt)),
        written := none } := by
  rw [SaveVault_eq w calls vault P j h1 h2]
  exact saveWithKey_nonce_failure w calls vault j _ e (DeriveKey_length _ _ _) h3

/-- A run of `SaveVault` that returns nil is one in which every call succeeded. -/
theorem SaveVault_ok_inv (w : Libs) (calls : SaveCalls) (vault : Vault) (P : String)
    (h : (SaveVault w calls vault P).outcome = .ok ()) :
    ∃ j n, calls.mkdirAll = none ∧ w.json.Marshal vault = .ok j ∧
      calls.nonce = .ok n ∧ calls.writeFile = none := by
  cases h1 : calls.mkdirAll with
  | some e =>
    simp only [SaveVault, EnsureVaultDir, h1] at h
    cases h
  | none =>
    cases h2 : w.json.Marshal vault with
    | error e =>
      simp only [SaveVault, EnsureVaultDir, h1, h2] at h
      cases h
    | ok j =>
      cases h3 : calls.nonce with
      | error e =>
        rw [SaveVault_nonce_failure w calls vault P j e h1 h2 h3] at h
        cases h
      | ok n =>
        cases h4 : calls.writeFile with
        | some e =>
          rw [SaveVault_write_failure w calls vault P j n e h1 h2 h3 h4] at h
          cases h
        | none => exact ⟨j, n, rfl, rfl, rfl, rfl⟩

/-- `LoadVault` on a file of at least 32 bytes: the salt is the first 32
bytes, the rest is decrypted under the key derived from it. -/
theorem LoadVault_eq (w : Libs) (s : Storage) (data : Bytes) (P : String)
    (hlen : SaltLength ≤ data.length) :
    LoadVault w s (.present data) P =
      loadWithKey w (data.drop SaltLength) (DeriveKey w.sha256 P (data.take SaltLength)) := by
  have h1 : ¬ data.length < SaltLength := Nat.not_lt.mpr hlen
  have h2 : sliceTo data SaltLength = some (data.take SaltLength) := by
    unfold sliceTo; exact if_pos hlen
  have h3 : sliceFrom data SaltLength = some (data.drop SaltLength) := by
    unfold sliceFrom; exact if_pos hlen
  rw [LoadVault.eq_def]
  show (if data.length < SaltLength then _ else _) = _
  rw [if_neg h1, h2, h3]

/-- `LoadVault` on a file of fewer than 32 bytes stops at the length check. -/
theorem LoadVault_too_short (w : Libs) (s : Storage) (data : Bytes) (P : String)
    (hlen : data.length < SaltLength) :
    LoadVault w s (.present data) P =
      { outcome := .error (.errorf "invalid vault file format"),
        trace := [], jsonData := none, key := none } := by
  rw [LoadVault.eq_def]
  show (if data.length < SaltLength then _ else _) = _
  rw [if_pos hlen]

/-- `LoadVault` on a file of at least 32 bytes whose post-salt region does not
decrypt. -/
theorem LoadVault_decrypt_error (w : Libs) (s : Storage) (data : Bytes) (P : String)
    (e : Error) (hlen : SaltLength ≤ data.length)
    (hdec : Decrypt w.gcm (data.drop SaltLength)
      (DeriveKey w.sha256 P (data.take SaltLength)) = .error e) :
    LoadVault w s (.present data) P =
      { outcome := .error (.errorf "invalid master password or corrupted vault"),
        trace := [.slice, .slice, .deriveKey, .decrypt], jsonData := none,
        key := some (SecureWipe (DeriveKey w.sha256 P (data.take SaltLength))) } := by
  rw [LoadVault_eq w s data P hlen, loadWithKey, hdec]

/-- `LoadVault` on a file of at least 32 bytes whose post-salt region decrypts
to data that parses. -/
theorem LoadVault_decrypt_ok (w : Libs) (s : Storage) (data : Bytes) (P : String)
    (j : Bytes) (v : Vault) (hlen : SaltLength ≤ data.length)
    (hdec : Decrypt w.gcm (data.drop SaltLength)
      (DeriveKey w.sha256 P (data.take SaltLength)) = .ok j)
    (hparse : w.json.Unmarshal j = .ok v) :
    LoadVault w s (.present data) P =
      { outcome := .ok v, trace := [.slice, .slice, .deriveKey, .decrypt, .unmarshal],
        jsonData := some (SecureWipe j),
        key := some (SecureWipe (DeriveKey w.sha256 P (data.take SaltLength))) } := by
  rw [LoadVault_eq w s data P hlen, loadWithKey, hdec]
  simp only [hparse]

/-- A vault returned by `CreateNewVault` is the empty vault over the salt drawn. -/
theorem CreateNewVault_ok_inv (w : Libs) (rnd : Except Error (RandBytes SaltLength))
    (calls : SaveCalls) (P : String) (v : Vault)
    (h : (CreateNewVault w rnd calls P).outcome = .ok v) :
    ∃ salt : RandBytes SaltLength, rnd = .ok salt ∧ v = NewVault salt.bytes := by
  cases rnd with
  | error e => simp [CreateNewVault, GenerateSalt] at h
  | ok salt =>
    refine ⟨salt, rfl, ?_⟩
    simp only [CreateNewVault, GenerateSalt] at h
    split at h
    · simp at h
    · simp at h
    · simpa [eq_comm] using h

/-- `AddEntry` never touches the salt. -/
theorem foldl_AddEntry_Salt (es : List PasswordEntry) (v : Vault) :
    (es.foldl Vault.AddEntry v).Salt = v.Salt := by
  induction es generalizing v with
  | nil => rfl
  | cons e es ih => simp [List.foldl_cons, ih, Vault.AddEntry]

/-- `AddEntry` appends, so a sequence of calls appends the sequence. -/
theorem foldl_AddEntry_Entries (es : List PasswordEntry) (v : Vault) :
    (es.foldl Vault.AddEntry v).Entries = v.Entries ++ es := by
  induction es generalizing v with
  | nil => simp
  | cons e es ih => simp [List.foldl_cons, ih, Vault.AddEntry]

/-- Loading, with the same password, the file a successful save wrote for a
vault whose salt has 32 bytes. -/
theorem LoadVault_saved (w : Libs) (s : Storage) (calls : SaveCalls) (V : Vault) (P : String)
    (hsalt : V.Salt.length = SaltLength)
    (hsave : (SaveVault w calls V P).outcome = .ok ()) :
    ∃ file, (SaveVault w calls V P).written = some file ∧
      ∃ v', (LoadVault w s (.present file) P).outcome = .ok v' ∧ v'.Salt = V.Salt ∧
        v'.Entries.map PasswordEntry.content = V.Entries.map PasswordEntry.content := by
  obtain ⟨j, n, h1, h2, h3, h4⟩ := SaveVault_ok_inv w calls V P hsave
  obtain ⟨v', hu, hs, he⟩ := w.json.unmarshal_marshal V j h2
  refine ⟨_, by rw [SaveVault_success w calls V P j n h1 h2 h3 h4], v', ?_, hs, he⟩
  have hlen : SaltLength ≤ (V.Salt ++ (n.bytes ++
      w.gcm.Seal (DeriveKey w.sha256 P V.Salt) n.bytes j)).length := by
    simp [hsalt]
  have hdec : Decrypt w.gcm
      ((V.Salt ++ (n.bytes ++ w.gcm.Seal (DeriveKey w.sha256 P V.Salt) n.bytes j)).drop SaltLength)
      (DeriveKey w.sha256 P
        ((V.Salt ++ (n.bytes ++ w.gcm.Seal (DeriveKey w.sha256 P V.Salt) n.bytes j)).take
          SaltLength)) = .ok j := by
    rw [List.take_left' hsalt, List.drop_left' hsalt]
    exact Decrypt_Encrypt w.gcm n j _ (DeriveKey_length _ _ _)
  rw [LoadVault_decrypt_ok w s _ P j v' hlen hdec hu]

/-- `CreateNewVault` when the salt is drawn and the first save succeeds. -/
theorem CreateNewVault_success (w : Libs) (salt : RandBytes SaltLength) (calls : SaveCalls)
    (P : String) (j : Bytes) (n : RandBytes NonceLength)
    (h1 : calls.mkdirAll = none) (h2 : w.json.Marshal (NewVault salt.bytes) = .ok j)
    (h3 : calls.nonce = .ok n) (h4 : calls.writeFile = none) :
    (CreateNewVault w (.ok salt) calls P).outcome = .ok (NewVault salt.bytes) := by
  simp only [CreateNewVault, GenerateSalt,
    SaveVault_success w calls (NewVault salt.bytes) P j n h1 h2 h3 h4]

theorem SaveVault_outcome_ok (w : Libs) (calls : SaveCalls) (vault : Vault) (P : String)
    (j : Bytes) (n : RandBytes NonceLength)
    (h1 : calls.mkdirAll = none) (h2 : w.json.Marshal vault = .ok j)
    (h3 : calls.nonce = .ok n) (h4 : calls.writeFile = none) :
    (SaveVault w calls vault P).outcome = .ok () := by
  rw [SaveVault_success w calls vault P j n h1 h2 h3 h4]

end storage

/-! ## A small instance of the libraries

Executable stand-ins for the three library interfaces, used to run the model
on concrete inputs.  They satisfy the stated contracts and make no claim of
being SHA-256, AES-GCM or JSON. -/

namespace toy

open crypto models storage

/-- The sum of the message bytes and the message length, times a prime. -/
def mix (m : Bytes) : Nat :=
  ((m.map UInt8.toNat).sum + m.length) * 2654435761

/-- Byte `i` of the digest: a byte of an odd multiple of the mixed message. -/
def spread (c : Nat) : Bytes :=
  (List.range 32).map (fun i => UInt8.ofNat ((c * (2 * i + 3)) >>> 16))

/-- A 32-byte digest. -/
def hash : HashFn where
  sum m := spread (mix m)
  size_sum _ := by simp [spread]

/-- The byte a key and nonce shift the plaintext by. -/
def pad (key nonce : Bytes) : UInt8 :=
  (key ++ nonce).foldl (fun a b => a + b) 1

/-- A 16-byte tag: every byte is the pad plus the sum of the plaintext bytes. -/
def tag (key nonce plaintext : Bytes) : Bytes :=
  List.replicate 16 (plaintext.foldl (fun a b => a + b) (pad key nonce))

/-- Shifted plaintext followed by the tag. -/
def sealData (key nonce plaintext : Bytes) : Bytes :=
  plaintext.map (fun b => b + pad key nonce) ++ tag key nonce plaintext

/-- Splits off the last 16 bytes, shifts back and compares the tag. -/
def openSealed (key nonce data : Bytes) : Option Bytes :=
  if data.length < 16 then none
  else
    let plaintext := (data.take (data.length - 16)).map (fun b => b - pad key nonce)
    if data.drop (data.length - 16) = tag key nonce plaintext then some plaintext else none

theorem sealData_length (key nonce plaintext : Bytes) :
    (sealData key nonce plaintext).length = plaintext.length + TagLength := by
  simp [sealData, tag, TagLength]

theorem openSealed_sealData (key nonce plaintext : Bytes) :
    openSealed key nonce (sealData key nonce plaintext) = some plaintext := by
  have hlen : (sealData key nonce plaintext).length - 16 =
      (plaintext.map (fun b => b + pad key nonce)).length := by
    simp [sealData, tag]
  have hback : (plaintext.map (fun b => b + pad key nonce)).map (fun b => b - pad key nonce)
      = plaintext := by
    simp [List.map_map, Function.comp_def]
  have hnot : ¬ (sealData key nonce plaintext).length < 16 := by simp [sealData, tag]
  unfold openSealed
  rw [if_neg hnot, hlen]
  simp only [sealData, List.take_left, List.drop_left, hback, if_true]

/-- The stand-in AEAD. -/
def cipher : Cipher where
  Seal := sealData
  Open := openSealed
  seal_length key nonce plaintext _ _ := sealData_length key nonce plaintext
  open_seal key nonce plaintext _ _ := openSealed_sealData key nonce plaintext
  open_short key nonce data _ _ h := by
    have h16 : data.length < 16 := h
    simp [openSealed, h16]

/-- Numbers in unary: `n` ones and a zero. -/
def encNats (ns : List Nat) : Bytes :=
  ns.flatMap (fun n => List.replicate n 1 ++ [0])

/-- Reads unary numbers; `acc` counts the ones seen since the last zero. -/
def decNatsFrom (acc : Nat) : Bytes → List Nat
  | [] => []
  | b :: bs => if b = 0 then acc :: decNatsFrom 0 bs else decNatsFrom (acc + 1) bs

/-- A string as its length and its code points. -/
def encString (s : String) : List Nat :=
  s.data.length :: s.data.map Char.toNat

/-- A byte slice as its length and its bytes. -/
def encBytes (b : Bytes) : List Nat :=
  b.length :: b.map UInt8.toNat

/-- An entry as its eight fields in declaration order. -/
def encEntry (e : PasswordEntry) : List Nat :=
  encString e.ID ++ (encString e.Title ++ (encString e.Username ++ (encString e.Password ++
    (encString e.URL ++ (encString e.Notes ++
      (Encodable.encode e.CreatedAt :: Encodable.encode e.UpdatedAt :: []))))))

/-- A vault as its salt, the number of entries, and the entries. -/
def encVault (v : Vault) : List Nat :=
  encBytes v.Salt ++ (v.Entries.length :: v.Entries.flatMap encEntry)

/-- Reads back `encString` from the front of a list. -/
def decString : List Nat → Option (String × List Nat)
  | [] => none
  | n :: rest =>
    if rest.length < n then none
    else some (String.mk ((rest.take n).map Char.ofNat), rest.drop n)

/-- Reads back `encBytes` from the front of a list. -/
def decBytes : List Nat → Option (Bytes × List Nat)
  | [] => none
  | n :: rest =>
    if rest.length < n then none
    else some ((rest.take n).map UInt8.ofNat, rest.drop n)

/-- Reads back one timestamp. -/
def decTime : List Nat → Option (Time × List Nat)
  | [] => none
  | n :: rest => (Encodable.decode n).map (fun t => (t, rest))

/-- Reads back `encEntry` from the front of a list. -/
def decEntry (l : List Nat) : Option (PasswordEntry × List Nat) := do
  let (f1, l) ← decString l
  let (f2, l) ← decString l
  let (f3, l) ← decString l
  let (f4, l) ← decString l
  let (f5, l) ← decString l
  let (f6, l) ← decString l
  let (t1, l) ← decTime l
  let (t2, l) ← decTime l
  pure (PasswordEntry.mk f1 f2 f3 f4 f5 f6 t1 t2, l)

/-- Reads back `count` entries from the front of a list. -/
def decEntries : Nat → List Nat → Option (List PasswordEntry × List Nat)
  | 0, l => some ([], l)
  | count + 1, l => do
    let (e, l) ← decEntry l
    let (es, l) ← decEntries count l
    pure (e :: es, l)

/-- Reads back `encVault`. -/
def decVault (l : List Nat) : Option Vault := do
  let (salt, l) ← decBytes l
  match l with
  | [] => none
  | count :: l =>
    let (entries, l) ← decEntries count l
    if l = [] then pure { Entries := entries, Salt := salt } else none

theorem decNatsFrom_unary (n acc : Nat) (rest : Bytes) :
    decNatsFrom acc (List.replicate n 1 ++ 0 :: rest) = (acc + n) :: decNatsFrom 0 rest := by
  induction n generalizing acc with
  | zero => simp [decNatsFrom]
  | succ n ih =>
    have h10 : ¬ ((1 : UInt8) = 0) := by decide
    show decNatsFrom acc (1 :: (List.replicate n 1 ++ 0 :: rest)) = _
    rw [decNatsFrom, if_neg h10, ih, Nat.add_assoc, Nat.add_comm 1 n]

theorem decNatsFrom_encNats (ns : List Nat) : decNatsFrom 0 (encNats ns) = ns := by
  induction ns with
  | nil => simp [encNats, decNatsFrom]
  | cons n ns ih =>
    have : encNats (n :: ns) = List.replicate n 1 ++ 0 :: encNats ns := by
      simp [encNats]
    rw [this, decNatsFrom_unary, ih]
    simp

theorem uint8_ofNat_toNat (b : UInt8) : UInt8.ofNat b.toNat = b := by
  cases b with
  | mk v =>
    apply UInt8.ext
    simp [UInt8.ofNat, UInt8.toNat, Fin.ofNat]

theorem decString_encString (s : String) (rest : List Nat) :
    decString (encString s ++ rest) = some (s, rest) := by
  have h : ¬ (s.data.map Char.toNat ++ rest).length < s.data.length := by simp
  have hl : (s.data.map Char.toNat).length = s.data.length := by simp
  simp only [encString, List.cons_append, decString, h, if_false, List.take_left' hl,
    List.drop_left' hl, List.map_map]
  simp [Function.comp_def]

theorem decBytes_encBytes (b : Bytes) (rest : List Nat) :
    decBytes (encBytes b ++ rest) = some (b, rest) := by
  have h : ¬ (b.map UInt8.toNat ++ rest).length < b.length := by simp
  have hl : (b.map UInt8.toNat).length = b.length := by simp
  simp only [encBytes, List.cons_append, decBytes, h, if_false, List.take_left' hl,
    List.drop_left' hl, List.map_map]
  simp [Function.comp_def, uint8_ofNat_toNat]

theorem decEntry_encEntry (e : PasswordEntry) (rest : List Nat) :
    decEntry (encEntry e ++ rest) = some (e, rest) := by
  simp only [decEntry, encEntry, List.append_assoc, decString_encString, decTime,
    List.cons_append, List.nil_append, Encodable.encodek, Option.map_some', Option.bind_eq_bind,
    Option.some_bind, Option.pure_def, bind_pure_comp, Option.map_eq_map]

theorem decEntries_encEntries (es : List PasswordEntry) (rest : List Nat) :
    decEntries es.length (es.flatMap encEntry ++ rest) = some (es, rest) := by
  induction es with
  | nil => simp [decEntries]
  | cons e es ih =>
    simp [decEntries, List.append_assoc, decEntry_encEntry, ih]

theorem decVault_encVault (v : Vault) : decVault (encVault v) = some v := by
  have h := decEntries_encEntries v.Entries []
  simp only [List.append_nil] at h
  simp [decVault, encVault, decBytes_encBytes, h]

/-- The stand-in serializer. -/
def json : JSONCodec where
  Marshal v := .ok (encNats (encVault v))
  Unmarshal data :=
    match decVault (decNatsFrom 0 data) with
    | some v => .ok v
    | none => .error (.errorf "invalid character")
  unmarshal_marshal v data h := by
    have hd : data = encNats (encVault v) := by
      simpa [eq_comm] using h
    exact ⟨v, by simp [hd, decNatsFrom_encNats, decVault_encVault], rfl, rfl⟩

/-- The stand-in libraries. -/
def libs : Libs where
  sha256 := hash
  gcm := cipher
  json := json

/-- A key of 32 zero bytes. -/
def key0 : Bytes := List.replicate 32 0

/-- The nonce `03 03 … 03`. -/
def nonce0 : RandBytes NonceLength := ⟨List.replicate 12 3, by decide⟩

/-- The salt `07 07 … 07`. -/
def salt0 : RandBytes SaltLength := ⟨List.replicate 32 7, by decide⟩

/-- An operating system on which every call of a save succeeds. -/
def calls0 : SaveCalls := { mkdirAll := none, nonce := .ok nonce0, writeFile := none }

/-- An operating system on which writing the vault file fails. -/
def callsWriteFails : SaveCalls :=
  { mkdirAll := none, nonce := .ok nonce0,
    writeFile := some (.errorf "open vault.enc: is a directory") }

/-- The entry of the concrete scenario. -/
def email : PasswordEntry :=
  { ID := "00ff00ff00ff00ff", Title := "Email", Username := "me@x.com", Password := "p4ss",
    URL := "", Notes := "", CreatedAt := 5, UpdatedAt := 5 }

/-- The ASCII part of the case table, read as the whole table. -/
def unicode : Unicode where
  ToLower := Char.toLower
  toLower_ascii _ _ := rfl

/-- Paths of a Unix system, without the cleaning `filepath.Join` also does:
absolute when they start with a slash, joined with a slash between the
non-empty elements. -/
def filepath : Filepath where
  IsAbs path := path.data.head? == some '/'
  Join elems := "/".intercalate (elems.filter (fun e => e ≠ ""))
  isAbs_empty := by decide

/-- A second entry with an id of its own. -/
def bank : PasswordEntry :=
  { ID := "1111111111111111", Title := "Bank", Username := "me", Password := "s3cret",
    URL := "https://bank.example", Notes := "", CreatedAt := 7, UpdatedAt := 9 }

/-- An entry with the id of `email` and another title. -/
def emailWork : PasswordEntry :=
  { ID := "00ff00ff00ff00ff", Title := "Email (work)", Username := "me@work.example",
    Password := "w0rk", URL := "", Notes := "", CreatedAt := 6, UpdatedAt := 6 }

/-- A vault with the two entries `email` and `bank`. -/
def vault2 : Vault :=
  ((NewVault salt0.bytes).AddEntry email).AddEntry bank

end toy

/-! ## The claims -/

open crypto models storage

/-- C1. Save/load round trip: for every password and every vault obtained from
CreateNewVault followed by any sequence of AddEntry calls, when save succeeds,
load with the same password of the file it wrote succeeds and returns a vault
with the same salt and the same entries in the same order (equal id, title,
username, password, url and notes); after adding a single entry titled "Email"
the reloaded vault has exactly one entry and its title is "Email". -/
theorem C1_save_load_round_trip (w : Libs) (s : Storage)
    (rnd : Except Error (RandBytes SaltLength)) (calls0 calls : SaveCalls) (P : String)
    (v0 : Vault) (es : List PasswordEntry)
    (hcreate : (CreateNewVault w rnd calls0 P).outcome = .ok v0)
    (hsave : (SaveVault w calls (es.foldl Vault.AddEntry v0) P).outcome = .ok ()) :
    ∃ file, (SaveVault w calls (es.foldl Vault.AddEntry v0) P).written = some file ∧
      ∃ v', (LoadVault w s (.present file) P).outcome = .ok v' ∧
        v'.Salt = (es.foldl Vault.AddEntry v0).Salt ∧
        v'.Entries.map PasswordEntry.content =
          (es.foldl Vault.AddEntry v0).Entries.map PasswordEntry.content ∧
        (∀ e, es = [e] → e.Title = "Email" →
          ∃ e', v'.Entries = [e'] ∧ e'.Title = "Email") := by
  obtain ⟨salt, _, hv0⟩ := CreateNewVault_ok_inv w rnd calls0 P v0 hcreate
  have hsalt : (es.foldl Vault.AddEntry v0).Salt.length = SaltLength := by
    rw [foldl_AddEntry_Salt, hv0]
    exact salt.length_eq
  obtain ⟨file, hfile, v', hload, hs, he⟩ :=
    LoadVault_saved w s calls (es.foldl Vault.AddEntry v0) P hsalt hsave
  refine ⟨file, hfile, v', hload, hs, he, ?_⟩
  intro e hes htitle
  rw [foldl_AddEntry_Entries, hv0, hes] at he
  simp only [NewVault, List.nil_append, List.map_cons, List.map_nil] at he
  cases hv : v'.Entries with
  | nil => rw [hv] at he; cases he
  | cons e' rest =>
    rw [hv] at he
    simp only [List.map_cons, List.cons.injEq, List.map_eq_nil_iff] at he
    obtain ⟨hc, hrest⟩ := he
    refine ⟨e', by rw [hrest], ?_⟩
    have ht : e'.Title = e.Title := congrArg (fun c => c.2.1) hc
    rw [ht, htitle]

/-- C1 at the concrete scenario: the stand-in libraries, the password
"correct-horse-battery", a new vault over the salt `07 … 07`, and the single
entry (title "Email", username "me@x.com", password "p4ss"). -/
theorem C1_save_load_round_trip_witness :
    (CreateNewVault toy.libs (.ok toy.salt0) toy.calls0 "correct-horse-battery").outcome =
      .ok (NewVault toy.salt0.bytes) ∧
    (SaveVault toy.libs toy.calls0
      ([toy.email].foldl Vault.AddEntry (NewVault toy.salt0.bytes))
      "correct-horse-battery").outcome = .ok () ∧
    ∃ file, (SaveVault toy.libs toy.calls0
        ([toy.email].foldl Vault.AddEntry (NewVault toy.salt0.bytes))
        "correct-horse-battery").written = some file ∧
      ∃ v', (LoadVault toy.libs ⟨"vault.enc"⟩ (.present file) "correct-horse-battery").outcome
          = .ok v' ∧
        v'.Salt = ([toy.email].foldl Vault.AddEntry (NewVault toy.salt0.bytes)).Salt ∧
        v'.Entries.map PasswordEntry.content =
          ([toy.email].foldl Vault.AddEntry (NewVault toy.salt0.bytes)).Entries.map
            PasswordEntry.content ∧
        (∀ e, [toy.email] = [e] → e.Title = "Email" →
          ∃ e', v'.Entries = [e'] ∧ e'.Title = "Email") :=
  ⟨CreateNewVault_success toy.libs toy.salt0 toy.calls0 _ _ toy.nonce0 rfl rfl rfl rfl,
    SaveVault_outcome_ok toy.libs toy.calls0 _ _ _ toy.nonce0 rfl rfl rfl rfl,
    C1_save_load_round_trip toy.libs ⟨"vault.enc"⟩ (.ok toy.salt0) toy.calls0 toy.calls0
      "correct-horse-battery" (NewVault toy.salt0.bytes) [toy.email]
      (CreateNewVault_success toy.libs toy.salt0 toy.calls0 _ _ toy.nonce0 rfl rfl rfl rfl)
      (SaveVault_outcome_ok toy.libs toy.calls0 _ _ _ toy.nonce0 rfl rfl rfl rfl)⟩

/-- C2. Cipher round trip: for every plaintext, every 32-byte key and whatever
nonce Encrypt draws, Encrypt succeeds and Decrypt of its output under the same
key succeeds and returns exactly the plaintext. -/
theorem C2_cipher_round_trip (g : Cipher) (nonce : RandBytes NonceLength)
    (p k : Bytes) (hk : k.length = KeyLength) :
    ∃ c, Encrypt g (.ok nonce) p k = .ok c ∧ Decrypt g c k = .ok p :=
  ⟨_, Encrypt_ok g nonce p k hk, Decrypt_Encrypt g nonce p k hk⟩

/-- C2 at the stand-in cipher, the key of 32 zero bytes and the plaintext `01 02 03`. -/
theorem C2_cipher_round_trip_witness :
    toy.key0.length = KeyLength ∧
    ∃ c, Encrypt toy.cipher (.ok toy.nonce0) [1, 2, 3] toy.key0 = .ok c ∧
      Decrypt toy.cipher c toy.key0 = .ok [1, 2, 3] :=
  ⟨by decide, C2_cipher_round_trip toy.cipher toy.nonce0 [1, 2, 3] toy.key0 (by decide)⟩

/-- C5. Truncation: for every password and every existing vault file shorter
than 32 bytes, the empty file included, load returns the invalid-format error,
and it returns it having taken no step on the file data: no slice expression,
no key derivation, no decryption (so nothing indexes the data out of bounds,
and the call does not panic). -/
theorem C5_truncated_file (w : Libs) (s : Storage) (P : String) (data : Bytes)
    (hlen : data.length < SaltLength) :
    LoadVault w s (.present data) P =
      { outcome := .error (.errorf "invalid vault file format"),
        trace := [], jsonData := none, key := none } := by
  rw [LoadVault.eq_def]
  show (if data.length < SaltLength then _ else _) = _
  rw [if_pos hlen]

/-- C5 at the empty file. -/
theorem C5_truncated_file_witness :
    ([] : Bytes).length < SaltLength ∧
    LoadVault toy.libs ⟨"vault.enc"⟩ (.present []) "correct-horse-battery" =
      { outcome := .error (.errorf "invalid vault file format"),
        trace := [], jsonData := none, key := none } :=
  ⟨by decide, C5_truncated_file toy.libs ⟨"vault.enc"⟩ "correct-horse-battery" [] (by decide)⟩

/-- C6. Ambiguous failure: for every password and every existing file of at
least 32 bytes, whenever Decrypt of the post-salt region under the derived key
fails, with whatever error, load returns the one error "invalid master password
or corrupted vault". -/
theorem C6_ambiguous_failure (w : Libs) (s : Storage) (P : String) (data : Bytes) (e : Error)
    (hlen : SaltLength ≤ data.length)
    (hdec : Decrypt w.gcm (data.drop SaltLength)
      (DeriveKey w.sha256 P (data.take SaltLength)) = .error e) :
    (LoadVault w s (.present data) P).outcome =
      .error (.errorf "invalid master password or corrupted vault") := by
  rw [LoadVault_decrypt_error w s data P e hlen hdec]

/-- C6 at a file of 32 zero bytes, whose post-salt region is empty. -/
theorem C6_ambiguous_failure_witness :
    SaltLength ≤ (List.replicate 32 (0 : UInt8)).length ∧
    (LoadVault toy.libs ⟨"vault.enc"⟩ (.present (List.replicate 32 0)) "pw").outcome =
      .error (.errorf "invalid master password or corrupted vault") :=
  ⟨by decide,
    C6_ambiguous_failure toy.libs ⟨"vault.enc"⟩ "pw" (List.replicate 32 0) .ErrInvalidNonce
      (by decide)
      (Decrypt_short _ _ _ (DeriveKey_length _ _ _) (by decide))⟩

/-- C7. File format: for every password and every vault with a 32-byte salt, a
successful save writes a file whose first 32 bytes are the salt, whose next 12
bytes are the nonce Encrypt drew, and whose remainder is the sealed data, the
ciphertext followed by a 16-byte tag: the file is `V.Salt ++ Encrypt(serialize
V, DeriveKey(P, V.Salt))` and has 32 + 12 + len(serialize V) + 16 bytes. -/
theorem C7_file_format (w : Libs) (calls : SaveCalls) (V : Vault) (P : String)
    (hsalt : V.Salt.length = SaltLength)
    (hsave : (SaveVault w calls V P).outcome = .ok ()) :
    ∃ (j : Bytes) (nonce : RandBytes NonceLength) (enc file : Bytes),
      w.json.Marshal V = .ok j ∧ calls.nonce = .ok nonce ∧
      Encrypt w.gcm calls.nonce j (DeriveKey w.sha256 P V.Salt) = .ok enc ∧
      (SaveVault w calls V P).written = some file ∧
      file = V.Salt ++ enc ∧
      file.take 32 = V.Salt ∧
      (file.drop 32).take 12 = nonce.bytes ∧
      file.drop (32 + 12) = w.gcm.Seal (DeriveKey w.sha256 P V.Salt) nonce.bytes j ∧
      (file.drop (32 + 12)).length = j.length + 16 ∧
      file.length = 32 + 12 + j.length + 16 := by
  obtain ⟨j, n, h1, h2, h3, h4⟩ := SaveVault_ok_inv w calls V P hsave
  have hk := DeriveKey_length w.sha256 P V.Salt
  have hseal := w.gcm.seal_length _ n.bytes j hk n.length_eq
  have hn : n.bytes.length = 12 := n.length_eq
  have hs : V.Salt.length = 32 := hsalt
  have ht : TagLength = 16 := rfl
  refine ⟨j, n, n.bytes ++ w.gcm.Seal (DeriveKey w.sha256 P V.Salt) n.bytes j, _, h2, h3,
    ?_, ?_, rfl, ?_, ?_, ?_, ?_, ?_⟩
  · rw [h3]; exact Encrypt_ok w.gcm n j _ hk
  · rw [SaveVault_success w calls V P j n h1 h2 h3 h4]
  · exact List.take_left' hs
  · rw [List.drop_left' hs]; exact List.take_left' hn
  · rw [← List.drop_drop, List.drop_left' hs, List.drop_left' hn]
  · rw [← List.drop_drop, List.drop_left' hs, List.drop_left' hn, hseal, ht]
  · rw [List.length_append, List.length_append, hs, hn, hseal, ht]
    omega

/-- C7 at the stand-in libraries, the empty vault over the salt `07 … 07` and
the password "correct-horse-battery". -/
theorem C7_file_format_witness :
    (NewVault toy.salt0.bytes).Salt.length = SaltLength ∧
    (SaveVault toy.libs toy.calls0 (NewVault toy.salt0.bytes) "correct-horse-battery").outcome
      = .ok () ∧
    ∃ (j : Bytes) (nonce : RandBytes NonceLength) (enc file : Bytes),
      toy.libs.json.Marshal (NewVault toy.salt0.bytes) = .ok j ∧
      toy.calls0.nonce = .ok nonce ∧
      Encrypt toy.libs.gcm toy.calls0.nonce j
        (DeriveKey toy.libs.sha256 "correct-horse-battery" (NewVault toy.salt0.bytes).Salt)
        = .ok enc ∧
      (SaveVault toy.libs toy.calls0 (NewVault toy.salt0.bytes) "correct-horse-battery").written
        = some file ∧
      file = (NewVault toy.salt0.bytes).Salt ++ enc ∧
      file.take 32 = (NewVault toy.salt0.bytes).Salt ∧
      (file.drop 32).take 12 = nonce.bytes ∧
      file.drop (32 + 12) = toy.libs.gcm.Seal
        (DeriveKey toy.libs.sha256 "correct-horse-battery" (NewVault toy.salt0.bytes).Salt)
        nonce.bytes j ∧
      (file.drop (32 + 12)).length = j.length + 16 ∧
      file.length = 32 + 12 + j.length + 16 :=
  ⟨toy.salt0.length_eq,
    SaveVault_outcome_ok toy.libs toy.calls0 _ _ _ toy.nonce0 rfl rfl rfl rfl,
    C7_file_format toy.libs toy.calls0 (NewVault toy.salt0.bytes) "correct-horse-battery"
      toy.salt0.length_eq
      (SaveVault_outcome_ok toy.libs toy.calls0 _ _ _ toy.nonce0 rfl rfl rfl rfl)⟩

/-- C8: what save leaves behind when writing the file fails. The derived key
is wiped, and the serialized plaintext is returned over unchanged: the buffer
still holds the vault's JSON. -/
theorem C8_write_failure_keeps_plaintext (w : Libs) (calls : SaveCalls) (V : Vault)
    (P : String) (j : Bytes) (n : RandBytes NonceLength) (e : Error)
    (h1 : calls.mkdirAll = none) (h2 : w.json.Marshal V = .ok j)
    (h3 : calls.nonce = .ok n) (h4 : calls.writeFile = some e) :
    (SaveVault w calls V P).outcome =
      .error (.errorf ("failed to write vault file: " ++ e.message)) ∧
    (SaveVault w calls V P).jsonData = some j ∧
    (SaveVault w calls V P).key = some (List.replicate KeyLength 0) := by
  rw [SaveVault_write_failure w calls V P j n e h1 h2 h3 h4]
  refine ⟨rfl, rfl, ?_⟩
  show some (SecureWipe _) = _
  rw [SecureWipe_eq_replicate, DeriveKey_length]

/-- C8 at the failing input: the empty vault over the salt `07 … 07`, the
password "correct-horse-battery", and a file system on which the write fails.
The plaintext buffer at return is the serialized vault, which is not all zero. -/
theorem C8_write_failure_keeps_plaintext_witness :
    (SaveVault toy.libs toy.callsWriteFails (NewVault toy.salt0.bytes)
        "correct-horse-battery").outcome =
      .error (.errorf ("failed to write vault file: " ++
        (Error.errorf "open vault.enc: is a directory").message)) ∧
    (SaveVault toy.libs toy.callsWriteFails (NewVault toy.salt0.bytes)
        "correct-horse-battery").jsonData =
      some (toy.encNats (toy.encVault (NewVault toy.salt0.bytes))) ∧
    (SaveVault toy.libs toy.callsWriteFails (NewVault toy.salt0.bytes)
        "correct-horse-battery").key = some (List.replicate KeyLength 0) ∧
    toy.encNats (toy.encVault (NewVault toy.salt0.bytes)) ≠
      SecureWipe (toy.encNats (toy.encVault (NewVault toy.salt0.bytes))) :=
  ⟨(C8_write_failure_keeps_plaintext toy.libs toy.callsWriteFails (NewVault toy.salt0.bytes)
      "correct-horse-battery" _ toy.nonce0 _ rfl rfl rfl rfl).1,
    (C8_write_failure_keeps_plaintext toy.libs toy.callsWriteFails (NewVault toy.salt0.bytes)
      "correct-horse-battery" _ toy.nonce0 _ rfl rfl rfl rfl).2.1,
    (C8_write_failure_keeps_plaintext toy.libs toy.callsWriteFails (NewVault toy.salt0.bytes)
      "correct-horse-battery" _ toy.nonce0 _ rfl rfl rfl rfl).2.2,
    by rw [SecureWipe_eq_map]; decide⟩

/-- C9 as stated fails: with the empty key and the empty input, which is
shorter than 12 bytes, Decrypt returns ErrInvalidKeyLength and not
ErrInvalidNonce, whatever the cipher. -/
theorem C9_counterexample :
    ([] : Bytes).length < NonceLength ∧
    (∀ g : Cipher, Decrypt g [] [] = .error .ErrInvalidKeyLength) ∧
    Error.ErrInvalidKeyLength ≠ Error.ErrInvalidNonce :=
  ⟨by decide, fun g => Decrypt_bad_key g [] [] (by decide), by decide⟩

/-- C9, amended. Decrypt framing check: for every framed input shorter than 12
bytes, Decrypt returns no plaintext: it fails with ErrInvalidNonce when the key
has 32 bytes, and with ErrInvalidKeyLength, checked first, when it has not. -/
theorem C9_decrypt_framing_check (g : Cipher) (key framed : Bytes)
    (hlen : framed.length < NonceLength) :
    (key.length = KeyLength → Decrypt g framed key = .error .ErrInvalidNonce) ∧
    (key.length ≠ KeyLength → Decrypt g framed key = .error .ErrInvalidKeyLength) :=
  ⟨fun hk => Decrypt_short g framed key hk hlen, fun hk => Decrypt_bad_key g framed key hk⟩

/-- C9 (amended) at the stand-in cipher, the key of 32 zero bytes and an
input of 11 bytes. -/
theorem C9_decrypt_framing_check_witness :
    (List.replicate 11 (9 : UInt8)).length < NonceLength ∧
    Decrypt toy.cipher (List.replicate 11 9) toy.key0 = .error .ErrInvalidNonce :=
  ⟨by decide,
    (C9_decrypt_framing_check toy.cipher toy.key0 (List.replicate 11 9) (by decide)).1
      (by decide)⟩

/-- C10. Encrypt key-length check: with the random source available, Encrypt
fails with ErrInvalidKeyLength if and only if the key is not exactly 32 bytes
long; with a 32-byte key it succeeds and returns 12 + len(plaintext) + 16 bytes
whose first 12 bytes are the nonce. -/
theorem C10_encrypt_key_length_check (g : Cipher) (nonce : RandBytes NonceLength)
    (plaintext key : Bytes) :
    (Encrypt g (.ok nonce) plaintext key = .error .ErrInvalidKeyLength ↔
      key.length ≠ KeyLength) ∧
    (key.length = KeyLength →
      ∃ c, Encrypt g (.ok nonce) plaintext key = .ok c ∧
        c.length = 12 + plaintext.length + 16 ∧ c.take 12 = nonce.bytes) := by
  constructor
  · constructor
    · intro h hk
      rw [Encrypt_ok g nonce plaintext key hk] at h
      cases h
    · intro hk
      simp only [Encrypt, hk, ne_eq, not_false_eq_true, if_true]
  · intro hk
    refine ⟨_, Encrypt_ok g nonce plaintext key hk, ?_, ?_⟩
    · have hs := g.seal_length key nonce.bytes plaintext hk nonce.length_eq
      have hn := nonce.length_eq
      simp only [List.length_append, hs, hn, NonceLength, TagLength]
      omega
    · exact List.take_left' nonce.length_eq

/-- C11. DeleteEntry removes the first match: for every vault and id such that
some entry has that id, DeleteEntry returns true and the resulting entries are
the original sequence with the first entry having that id removed: the entries
before it and after it are kept, unchanged and in the same order, and the
length decreases by exactly one. -/
theorem C11_delete_removes_first_match (v : Vault) (id : String)
    (h : ∃ e ∈ v.Entries, e.ID = id) :
    (v.DeleteEntry id).2 = true ∧
    ∃ pre e post, v.Entries = pre ++ e :: post ∧ e.ID = id ∧ (∀ x ∈ pre, x.ID ≠ id) ∧
      (v.DeleteEntry id).1.Entries = pre ++ post ∧
      (v.DeleteEntry id).1.Entries.length + 1 = v.Entries.length := by
  obtain ⟨pre, e, post, hl, he, hpre, hdel⟩ := DeleteEntry_found v id h
  rw [hdel]
  refine ⟨rfl, pre, e, post, hl, he, hpre, rfl, ?_⟩
  rw [hl]
  simp only [List.length_append, List.length_cons]
  omega

/-- C11 at the vault with the entries `email` and `bank`, deleting `email`. -/
theorem C11_delete_removes_first_match_witness :
    (∃ e ∈ toy.vault2.Entries, e.ID = "00ff00ff00ff00ff") ∧
    (toy.vault2.DeleteEntry "00ff00ff00ff00ff").2 = true ∧
    ∃ pre e post, toy.vault2.Entries = pre ++ e :: post ∧ e.ID = "00ff00ff00ff00ff" ∧
      (∀ x ∈ pre, x.ID ≠ "00ff00ff00ff00ff") ∧
      (toy.vault2.DeleteEntry "00ff00ff00ff00ff").1.Entries = pre ++ post ∧
      (toy.vault2.DeleteEntry "00ff00ff00ff00ff").1.Entries.length + 1 =
        toy.vault2.Entries.length :=
  ⟨⟨toy.email, by decide, rfl⟩,
    C11_delete_removes_first_match toy.vault2 "00ff00ff00ff00ff" ⟨toy.email, by decide, rfl⟩⟩

/-- C12. DeleteEntry on an unknown id is a no-op: for every vault and every id
that no entry has, DeleteEntry returns false and the vault, entries and salt,
is unchanged. -/
theorem C12_delete_unknown_id (v : Vault) (id : String)
    (h : ∀ e ∈ v.Entries, e.ID ≠ id) :
    (v.DeleteEntry id).2 = false ∧ (v.DeleteEntry id).1 = v ∧
    (v.DeleteEntry id).1.Entries = v.Entries ∧ (v.DeleteEntry id).1.Salt = v.Salt := by
  rw [DeleteEntry_missing v id h]
  exact ⟨rfl, rfl, rfl, rfl⟩

/-- C12 at the vault with the entries `email` and `bank` and an id neither has. -/
theorem C12_delete_unknown_id_witness :
    (∀ e ∈ toy.vault2.Entries, e.ID ≠ "ffffffffffffffff") ∧
    (toy.vault2.DeleteEntry "ffffffffffffffff").2 = false ∧
    (toy.vault2.DeleteEntry "ffffffffffffffff").1 = toy.vault2 ∧
    (toy.vault2.DeleteEntry "ffffffffffffffff").1.Entries = toy.vault2.Entries ∧
    (toy.vault2.DeleteEntry "ffffffffffffffff").1.Salt = toy.vault2.Salt :=
  ⟨by decide, C12_delete_unknown_id toy.vault2 "ffffffffffffffff" (by decide)⟩

/-- C13 as stated fails: AddEntry does not deduplicate ids, so a vault can
hold two entries with one id; DeleteEntry removes the first, and GetEntry on
the resulting vault returns the second. -/
theorem C13_counterexample :
    ((((NewVault toy.salt0.bytes).AddEntry toy.email).AddEntry toy.emailWork).DeleteEntry
      "00ff00ff00ff00ff").1.GetEntry "00ff00ff00ff00ff" = some toy.emailWork := by
  decide

/-- C13, amended. Delete then get: for every vault and id, GetEntry on the
vault DeleteEntry leaves returns absent exactly when at most one entry of the
vault had that id; so it returns absent for every vault whose ids are pairwise
distinct. -/
theorem C13_delete_then_get (v : Vault) (id : String) :
    ((v.DeleteEntry id).1.GetEntry id = none ↔
      v.Entries.countP (fun e => e.ID == id) ≤ 1) ∧
    (v.IdsDistinct → (v.DeleteEntry id).1.GetEntry id = none) := by
  have key : (v.DeleteEntry id).1.GetEntry id = none ↔
      v.Entries.countP (fun e => e.ID == id) ≤ 1 := by
    by_cases h : ∃ e ∈ v.Entries, e.ID = id
    · obtain ⟨pre, e, post, hl, he, hpre, hdel⟩ := DeleteEntry_found v id h
      have hpre0 : pre.countP (fun e => e.ID == id) = 0 := by
        rw [List.countP_eq_zero]
        intro x hx
        simpa using hpre x hx
      rw [hdel, hl]
      simp only [Vault.GetEntry, List.countP_append, List.countP_cons, hpre0, he, beq_self_eq_true,
        if_true, List.find?_append, find?_id_eq_none id pre hpre, Option.none_or,
        List.find?_eq_none]
      constructor
      · intro hpost
        have : post.countP (fun e => e.ID == id) = 0 := by
          rw [List.countP_eq_zero]
          exact hpost
        omega
      · intro hc
        have : post.countP (fun e => e.ID == id) = 0 := by omega
        exact List.countP_eq_zero.mp this
    · have hno : ∀ e ∈ v.Entries, e.ID ≠ id := fun e he hid => h ⟨e, he, hid⟩
      have hc : v.Entries.countP (fun e => e.ID == id) = 0 := by
        rw [List.countP_eq_zero]
        intro x hx
        simpa using hno x hx
      rw [DeleteEntry_missing v id hno, hc]
      simp only [Vault.GetEntry, find?_id_eq_none id v.Entries hno, Nat.zero_le]
  refine ⟨key, fun hd => key.mpr ?_⟩
  by_cases h : ∃ e ∈ v.Entries, e.ID = id
  · obtain ⟨pre, e, post, hl, he, hpre, _⟩ := DeleteEntry_found v id h
    have hpre0 : pre.countP (fun e => e.ID == id) = 0 := by
      rw [List.countP_eq_zero]
      intro x hx
      simpa using hpre x hx
    have hpost0 : post.countP (fun e => e.ID == id) = 0 := by
      rw [List.countP_eq_zero]
      intro x hx hxid
      have hnd : (pre.map (fun e => e.ID) ++ e.ID :: post.map (fun e => e.ID)).Nodup := by
        have := hd
        simpa [Vault.IdsDistinct, hl] using this
      have hcons := (List.nodup_append.mp hnd).2.1
      have hnot := (List.nodup_cons.mp hcons).1
      apply hnot
      rw [he]
      have hxid' : x.ID = id := by simpa using hxid
      exact List.mem_map.mpr ⟨x, hx, hxid'⟩
    rw [hl]
    simp only [List.countP_append, List.countP_cons, hpre0, hpost0, he, beq_self_eq_true,
      if_true]
    omega
  · have hc : v.Entries.countP (fun e => e.ID == id) = 0 := by
      rw [List.countP_eq_zero]
      intro x hx hxid
      exact h ⟨x, hx, by simpa using hxid⟩
    omega

/-- C14 as stated fails: when the vault already holds an entry with the id of
the entry added, GetEntry returns the older entry, whose title is not the
title of the entry added. -/
theorem C14_counterexample :
    (((NewVault toy.salt0.bytes).AddEntry toy.email).AddEntry toy.emailWork).GetEntry
      toy.emailWork.ID = some toy.email ∧
    toy.email.Title ≠ toy.emailWork.Title := by
  decide

/-- C14, amended. Add then get: for every vault and every entry e whose id no
entry of the vault has yet, after AddEntry(e) the call GetEntry(e.ID) returns
present with an entry equal to e in every field: id, title, username,
password, url, notes, created_at and updated_at. -/
theorem C14_add_then_get (v : Vault) (e : PasswordEntry)
    (hfresh : ∀ x ∈ v.Entries, x.ID ≠ e.ID) :
    (v.AddEntry e).GetEntry e.ID = some e := by
  simp only [Vault.GetEntry, Vault.AddEntry, List.find?_append,
    find?_id_eq_none e.ID v.Entries hfresh, Option.none_or, List.find?_cons, beq_self_eq_true]

/-- C14 (amended) at the vault holding `email`, adding `bank`. -/
theorem C14_add_then_get_witness :
    (∀ x ∈ ((NewVault toy.salt0.bytes).AddEntry toy.email).Entries, x.ID ≠ toy.bank.ID) ∧
    (((NewVault toy.salt0.bytes).AddEntry toy.email).AddEntry toy.bank).GetEntry toy.bank.ID =
      some toy.bank :=
  ⟨by decide,
    C14_add_then_get ((NewVault toy.salt0.bytes).AddEntry toy.email) toy.bank (by decide)⟩

/-- C15. UpdateEntry touches only its target: it returns true if and only if
some entry has the id; when it returns true, exactly the first entry with that
id has its title, username, password, url and notes replaced by the given
values and its updated_at set to the current time, while its id and
created_at, every other entry, the order and number of entries, and the salt
are unchanged; when it returns false the vault is unchanged. -/
theorem C15_update_touches_only_target (v : Vault)
    (id title username password url notes : String) (now : Time) :
    ((v.UpdateEntry id title username password url notes now).2 = true ↔
      ∃ e ∈ v.Entries, e.ID = id) ∧
    ((v.UpdateEntry id title username password url notes now).2 = true →
      ∃ pre e post, v.Entries = pre ++ e :: post ∧ e.ID = id ∧ (∀ x ∈ pre, x.ID ≠ id) ∧
        (v.UpdateEntry id title username password url notes now).1.Entries =
          pre ++ { ID := e.ID, Title := title, Username := username, Password := password,
                   URL := url, Notes := notes, CreatedAt := e.CreatedAt, UpdatedAt := now }
            :: post ∧
        (v.UpdateEntry id title username password url notes now).1.Entries.length =
          v.Entries.length ∧
        (v.UpdateEntry id title username password url notes now).1.Salt = v.Salt) ∧
    ((v.UpdateEntry id title username password url notes now).2 = false →
      (v.UpdateEntry id title username password url notes now).1 = v) := by
  by_cases h : ∃ e ∈ v.Entries, e.ID = id
  · obtain ⟨pre, e, post, hl, he, hpre, hup⟩ :=
      UpdateEntry_found v id title username password url notes now h
    rw [hup]
    refine ⟨⟨fun _ => h, fun _ => rfl⟩, fun _ => ?_, fun hf => (by cases hf)⟩
    refine ⟨pre, e, post, hl, he, hpre, rfl, ?_, rfl⟩
    rw [hl]
    simp only [List.length_append, List.length_cons]
  · have hno : ∀ e ∈ v.Entries, e.ID ≠ id := fun e he hid => h ⟨e, he, hid⟩
    rw [UpdateEntry_missing v id title username password url notes now hno]
    exact ⟨⟨fun hf => (by cases hf), fun hh => absurd hh h⟩, fun hf => (by cases hf),
      fun _ => rfl⟩

/-- C16 as stated fails: the update stores whatever the clock reads. In the
vault holding `email`, created and last updated at instant 5, an update that
reads the clock at 5 leaves updated_at at 5, not strictly greater, and one that
reads it at 3 leaves updated_at = 3 below created_at = 5. -/
theorem C16_counterexample :
    toy.email.CreatedAt = 5 ∧ toy.email.UpdatedAt = 5 ∧
    ((((NewVault toy.salt0.bytes).AddEntry toy.email).UpdateEntry toy.email.ID
        "Email" "me@x.com" "n3w" "" "" 5).1.GetEntry toy.email.ID).map
      (fun e => (e.CreatedAt, e.UpdatedAt)) = some (5, 5) ∧
    ((((NewVault toy.salt0.bytes).AddEntry toy.email).UpdateEntry toy.email.ID
        "Email" "me@x.com" "n3w" "" "" 3).1.GetEntry toy.email.ID).map
      (fun e => (e.CreatedAt, e.UpdatedAt)) = some (5, 3) := by
  decide

/-- C16, amended. UpdateEntry and updated_at: for every vault, every id
present in it and every clock reading taken by the update, a successful
UpdateEntry sets the targeted entry's updated_at to that reading and leaves
its created_at unchanged; the new updated_at is strictly greater than the old
one exactly when the reading is later than the old one, and in that case the
entry invariant updated_at >= created_at, if it held before, continues to
hold; in general the invariant holds afterwards exactly when the reading is
not earlier than created_at. -/
theorem C16_update_sets_updated_at (v : Vault)
    (id title username password url notes : String) (now : Time)
    (h : ∃ e ∈ v.Entries, e.ID = id) :
    (v.UpdateEntry id title username password url notes now).2 = true ∧
    ∃ pre e post e', v.Entries = pre ++ e :: post ∧ e.ID = id ∧ (∀ x ∈ pre, x.ID ≠ id) ∧
      (v.UpdateEntry id title username password url notes now).1.Entries =
        pre ++ e' :: post ∧
      e'.UpdatedAt = now ∧ e'.CreatedAt = e.CreatedAt ∧
      (e.UpdatedAt < e'.UpdatedAt ↔ e.UpdatedAt < now) ∧
      (e.UpdatedAt < now → e.CreatedAt ≤ e.UpdatedAt → e'.CreatedAt ≤ e'.UpdatedAt) ∧
      (e'.CreatedAt ≤ e'.UpdatedAt ↔ e.CreatedAt ≤ now) := by
  obtain ⟨pre, e, post, hl, he, hpre, hup⟩ :=
    UpdateEntry_found v id title username password url notes now h
  rw [hup]
  refine ⟨rfl, pre, e, post, e.Update title username password url notes now, hl, he, hpre, rfl,
    rfl, rfl, Iff.rfl, ?_, Iff.rfl⟩
  intro hlt hinv
  exact le_of_lt (lt_of_le_of_lt hinv hlt)

/-- C16 (amended) at the vault with the entries `email` and `bank`, updating
`bank`, last updated at 9, with the clock at 12. -/
theorem C16_update_sets_updated_at_witness :
    (∃ e ∈ toy.vault2.Entries, e.ID = "1111111111111111") ∧
    (toy.vault2.UpdateEntry "1111111111111111" "Bank" "me" "n3w" "" "" 12).2 = true ∧
    ∃ pre e post e', toy.vault2.Entries = pre ++ e :: post ∧ e.ID = "1111111111111111" ∧
      (∀ x ∈ pre, x.ID ≠ "1111111111111111") ∧
      (toy.vault2.UpdateEntry "1111111111111111" "Bank" "me" "n3w" "" "" 12).1.Entries =
        pre ++ e' :: post ∧
      e'.UpdatedAt = 12 ∧ e'.CreatedAt = e.CreatedAt ∧
      (e.UpdatedAt < e'.UpdatedAt ↔ e.UpdatedAt < 12) ∧
      (e.UpdatedAt < 12 → e.CreatedAt ≤ e.UpdatedAt → e'.CreatedAt ≤ e'.UpdatedAt) ∧
      (e'.CreatedAt ≤ e'.UpdatedAt ↔ e.CreatedAt ≤ 12) :=
  ⟨⟨toy.bank, by decide, rfl⟩,
    C16_update_sets_updated_at toy.vault2 "1111111111111111" "Bank" "me" "n3w" "" "" 12
      ⟨toy.bank, by decide, rfl⟩⟩

/-- C17. SearchEntries is a case-insensitive order-preserving filter: for
every vault and query the result is the subsequence of the vault's entries, in
original order and without duplication, whose title, username, url or notes
contains the query as a substring after both are lower-cased; the password is
not consulted; for the empty query the result is every entry in original
order; and the query "GMAIL" matches an entry titled "gmail account". -/
theorem C17_search_is_filter (u : Unicode) (v : Vault) (query : String) :
    v.SearchEntries u query = v.Entries.filter (fun e => decide (specMatches u e query)) ∧
    (v.SearchEntries u query).Sublist v.Entries ∧
    v.SearchEntries u "" = v.Entries ∧
    (∀ (e : PasswordEntry) (p : String),
      ({ e with Password := p } : PasswordEntry).MatchesSearch u query =
        e.MatchesSearch u query) ∧
    (∀ e ∈ v.Entries, e.Title = "gmail account" → e ∈ v.SearchEntries u "GMAIL") := by
  have hfilter : ∀ q, v.Entries.filter (fun e => e.MatchesSearch u q) =
      v.Entries.filter (fun e => decide (specMatches u e q)) := by
    intro q
    apply List.filter_congr
    intro e _
    rw [Bool.eq_iff_iff, MatchesSearch_iff, decide_eq_true_iff]
  have hall : v.Entries.filter (fun e => e.MatchesSearch u "") = v.Entries := by
    rw [List.filter_eq_self]
    intro e _
    exact MatchesSearch_empty u e
  have hsearch : v.SearchEntries u query = v.Entries.filter (fun e => e.MatchesSearch u query) := by
    by_cases hq : query = ""
    · rw [hq, hall]
      simp only [Vault.SearchEntries, if_true]
    · simp only [Vault.SearchEntries, hq, if_false]
  refine ⟨by rw [hsearch, hfilter], ?_, by simp only [Vault.SearchEntries, if_true],
    fun e p => rfl, ?_⟩
  · rw [hsearch]
    exact List.filter_sublist _
  · intro e he ht
    have hne : ("GMAIL" : String) ≠ "" := by decide
    simp only [Vault.SearchEntries, hne, if_false, List.mem_filter]
    refine ⟨he, ?_⟩
    rw [MatchesSearch_iff]
    left
    rw [ht, stringsToLower_GMAIL, stringsToLower_gmail_account,
      ← stringsContains_iff]
    decide

/-- C18. The salt is never changed: NewVault(salt) returns a vault with an
empty entry sequence and exactly the given salt, and AddEntry, UpdateEntry,
DeleteEntry, GetEntry and SearchEntries, with any arguments, leave the vault's
salt unchanged. -/
theorem C18_salt_never_changed (salt : Bytes) (v : Vault) (c : Call) :
    (NewVault salt).Entries = [] ∧ (NewVault salt).Salt = salt ∧
    (v.after c).Salt = v.Salt := by
  refine ⟨rfl, rfl, ?_⟩
  cases c with
  | AddEntry entry => rfl
  | UpdateEntry id title username password url notes now =>
    simp only [Vault.after, Vault.UpdateEntry]
    split <;> rfl
  | DeleteEntry id =>
    simp only [Vault.after, Vault.DeleteEntry]
    split <;> rfl
  | GetEntry id => rfl
  | SearchEntries query => rfl

/-- C19. Id uniqueness is preserved: for every vault whose entry ids are
pairwise distinct, the ids are still pairwise distinct after UpdateEntry and
after DeleteEntry with any arguments, and after AddEntry(e) whenever e.ID
does not already occur in the vault. -/
theorem C19_id_uniqueness_preserved (v : Vault) (h : v.IdsDistinct) :
    (∀ (id title username password url notes : String) (now : Time),
      (v.UpdateEntry id title username password url notes now).1.IdsDistinct) ∧
    (∀ id : String, (v.DeleteEntry id).1.IdsDistinct) ∧
    (∀ e : PasswordEntry, (∀ x ∈ v.Entries, x.ID ≠ e.ID) → (v.AddEntry e).IdsDistinct) := by
  refine ⟨?_, ?_, ?_⟩
  · intro id title username password url notes now
    by_cases hx : ∃ e ∈ v.Entries, e.ID = id
    · obtain ⟨pre, e, post, hl, _, _, hup⟩ :=
        UpdateEntry_found v id title username password url notes now hx
      rw [hup]
      have hids : (pre ++ e.Update title username password url notes now :: post).map
          (fun e => e.ID) = v.Entries.map (fun e => e.ID) := by
        rw [hl]
        simp only [List.map_append, List.map_cons, PasswordEntry.Update]
      unfold Vault.IdsDistinct
      rw [hids]
      exact h
    · have hno : ∀ e ∈ v.Entries, e.ID ≠ id := fun e he hid => hx ⟨e, he, hid⟩
      rw [UpdateEntry_missing v id title username password url notes now hno]
      exact h
  · intro id
    by_cases hx : ∃ e ∈ v.Entries, e.ID = id
    · obtain ⟨pre, e, post, hl, _, _, hdel⟩ := DeleteEntry_found v id hx
      rw [hdel]
      unfold Vault.IdsDistinct at h ⊢
      rw [hl] at h
      have hsub : (pre ++ post).Sublist (pre ++ e :: post) :=
        List.Sublist.append_left (List.sublist_cons_self e post) pre
      exact h.sublist (hsub.map _)
    · have hno : ∀ e ∈ v.Entries, e.ID ≠ id := fun e he hid => hx ⟨e, he, hid⟩
      rw [DeleteEntry_missing v id hno]
      exact h
  · intro e hfresh
    unfold Vault.IdsDistinct at h ⊢
    simp only [Vault.AddEntry, List.map_append, List.map_cons, List.map_nil]
    rw [List.nodup_append]
    refine ⟨h, List.nodup_singleton _, ?_⟩
    intro a ha hb
    rw [List.mem_singleton] at hb
    obtain ⟨x, hx, hxa⟩ := List.mem_map.mp ha
    exact hfresh x hx (hxa.trans hb)

/-- C19 at the vault with the entries `email` and `bank`. -/
theorem C19_id_uniqueness_preserved_witness :
    toy.vault2.IdsDistinct ∧
    (∀ (id title username password url notes : String) (now : Time),
      (toy.vault2.UpdateEntry id title username password url notes now).1.IdsDistinct) ∧
    (∀ id : String, (toy.vault2.DeleteEntry id).1.IdsDistinct) ∧
    (∀ e : PasswordEntry, (∀ x ∈ toy.vault2.Entries, x.ID ≠ e.ID) →
      (toy.vault2.AddEntry e).IdsDistinct) :=
  ⟨by unfold Vault.IdsDistinct; decide,
    C19_id_uniqueness_preserved toy.vault2 (by unfold Vault.IdsDistinct; decide)⟩

/-- C20. Path resolution: for every configured path and home directory, the
store's path is the configured path itself when it is absolute; the configured
path joined onto the home directory when it is non-empty and relative; the
home directory joined with ".vault" and "vault.enc" when it is empty; and the
bare file name "vault.enc" when it is empty and the home directory cannot be
determined. -/
theorem C20_path_resolution (fp : Filepath) (home : Except Error String) (filePath : String) :
    (fp.IsAbs filePath = true → (NewStorage fp home filePath).GetVaultPath = filePath) ∧
    (filePath ≠ "" → fp.IsAbs filePath = false → ∀ homeDir, home = .ok homeDir →
      (NewStorage fp home filePath).GetVaultPath = fp.Join [homeDir, filePath]) ∧
    (filePath = "" → ∀ homeDir, home = .ok homeDir →
      (NewStorage fp home filePath).GetVaultPath = fp.Join [homeDir, ".vault", "vault.enc"]) ∧
    (filePath = "" → ∀ err, home = .error err →
      (NewStorage fp home filePath).GetVaultPath = "vault.enc") := by
  refine ⟨?_, ?_, ?_, ?_⟩
  · intro habs
    have hne : filePath ≠ "" := by
      intro he
      rw [he, fp.isAbs_empty] at habs
      cases habs
    simp only [NewStorage, hne, if_false, habs, Bool.not_true, Storage.GetVaultPath]
    rfl
  · intro hne hrel homeDir hhome
    simp only [NewStorage, hne, if_false, hrel, Bool.not_false, if_true, hhome,
      Storage.GetVaultPath]
  · intro he homeDir hhome
    simp only [NewStorage, he, if_true, hhome, Storage.GetVaultPath, DefaultVaultFile]
  · intro he err hhome
    simp only [NewStorage, he, if_true, hhome, Storage.GetVaultPath, DefaultVaultFile]

/-- C21. SecureWipe zeroes the buffer: for every byte buffer, after SecureWipe
the buffer has the same length and every byte is 0, the empty buffer is left
empty, and applying it a second time changes nothing. -/
theorem C21_secure_wipe_zeroes (data : Bytes) :
    (SecureWipe data).length = data.length ∧
    (∀ i, i < data.length → (SecureWipe data)[i]? = some 0) ∧
    (∀ b ∈ SecureWipe data, b = 0) ∧
    SecureWipe [] = [] ∧
    SecureWipe (SecureWipe data) = SecureWipe data := by
  refine ⟨?_, ?_, ?_, rfl, ?_⟩
  · rw [SecureWipe_eq_replicate, List.length_replicate]
  · intro i hi
    rw [SecureWipe_eq_replicate, List.getElem?_replicate, if_pos hi]
  · intro b hb
    rw [SecureWipe_eq_replicate] at hb
    exact List.eq_of_mem_replicate hb
  · rw [SecureWipe_eq_replicate (SecureWipe data), SecureWipe_eq_replicate data,
      List.length_replicate]

/-- C22. Truncated files never load: for every password and every existing
vault file shorter than 60 bytes, the empty file included, LoadVault returns an
error and never a vault. The length check rejects files under 32 bytes; for a
post-salt region under 12 bytes Decrypt fails at the nonce check; for a longer
region, too short to hold the 16-byte tag after the nonce, Decrypt fails in
authenticated decryption; in both cases LoadVault returns its one load error. -/
theorem C22_truncated_files_never_load (w : Libs) (s : Storage) (P : String) (data : Bytes)
    (hlen : data.length < 60) :
    (∃ e, (LoadVault w s (.present data) P).outcome = .error e) ∧
    (∀ v, (LoadVault w s (.present data) P).outcome ≠ .ok v) ∧
    (data.length < SaltLength →
      (LoadVault w s (.present data) P).outcome =
        .error (.errorf "invalid vault file format")) ∧
    (SaltLength ≤ data.length → data.length < SaltLength + NonceLength →
      Decrypt w.gcm (data.drop SaltLength) (DeriveKey w.sha256 P (data.take SaltLength)) =
        .error .ErrInvalidNonce ∧
      (LoadVault w s (.present data) P).outcome =
        .error (.errorf "invalid master password or corrupted vault")) ∧
    (SaltLength + NonceLength ≤ data.length →
      Decrypt w.gcm (data.drop SaltLength) (DeriveKey w.sha256 P (data.take SaltLength)) =
        .error .ErrDecryption ∧
      (LoadVault w s (.present data) P).outcome =
        .error (.errorf "invalid master password or corrupted vault")) := by
  have hk : (DeriveKey w.sha256 P (data.take SaltLength)).length = KeyLength :=
    DeriveKey_length _ _ _
  have hdrop : (data.drop SaltLength).length = data.length - SaltLength := List.length_drop _ _
  have hshort : data.length < SaltLength →
      (LoadVault w s (.present data) P).outcome =
        .error (.errorf "invalid vault file format") := by
    intro h
    rw [LoadVault_too_short w s data P h]
  have hnonce : SaltLength ≤ data.length → data.length < SaltLength + NonceLength →
      Decrypt w.gcm (data.drop SaltLength) (DeriveKey w.sha256 P (data.take SaltLength)) =
        .error .ErrInvalidNonce ∧
      (LoadVault w s (.present data) P).outcome =
        .error (.errorf "invalid master password or corrupted vault") := by
    intro h1 h2
    have hdec := Decrypt_short w.gcm (data.drop SaltLength) _ hk (by rw [hdrop]; omega)
    refine ⟨hdec, ?_⟩
    rw [LoadVault_decrypt_error w s data P _ h1 hdec]
  have htag : SaltLength + NonceLength ≤ data.length →
      Decrypt w.gcm (data.drop SaltLength) (DeriveKey w.sha256 P (data.take SaltLength)) =
        .error .ErrDecryption ∧
      (LoadVault w s (.present data) P).outcome =
        .error (.errorf "invalid master password or corrupted vault") := by
    intro h1
    have h32 : SaltLength ≤ data.length := Nat.le_trans (Nat.le_add_right _ _) h1
    have hdec := Decrypt_no_tag w.gcm (data.drop SaltLength) _ hk
      (by rw [hdrop]; omega)
      (by rw [hdrop]; simp only [SaltLength, NonceLength, TagLength] at h1 ⊢; omega)
    refine ⟨hdec, ?_⟩
    rw [LoadVault_decrypt_error w s data P _ h32 hdec]
  have herr : ∃ e, (LoadVault w s (.present data) P).outcome = .error e := by
    by_cases h1 : data.length < SaltLength
    · exact ⟨_, hshort h1⟩
    · by_cases h2 : data.length < SaltLength + NonceLength
      · exact ⟨_, (hnonce (Nat.le_of_not_lt h1) h2).2⟩
      · exact ⟨_, (htag (Nat.le_of_not_lt h2)).2⟩
  refine ⟨herr, ?_, hshort, hnonce, htag⟩
  intro v hv
  obtain ⟨e, he⟩ := herr
  rw [he] at hv
  cases hv

/-- C22 at the empty file and at a file of 50 zero bytes, whose post-salt
region holds a nonce and 6 more bytes. -/
theorem C22_truncated_files_never_load_witness :
    ([] : Bytes).length < 60 ∧ (List.replicate 50 (0 : UInt8)).length < 60 ∧
    (LoadVault toy.libs ⟨"vault.enc"⟩ (.present []) "pw").outcome =
      .error (.errorf "invalid vault file format") ∧
    (LoadVault toy.libs ⟨"vault.enc"⟩ (.present (List.replicate 50 0)) "pw").outcome =
      .error (.errorf "invalid master password or corrupted vault") :=
  ⟨by decide, by decide,
    (C22_truncated_files_never_load toy.libs ⟨"vault.enc"⟩ "pw" [] (by decide)).2.2.1
      (by decide),
    ((C22_truncated_files_never_load toy.libs ⟨"vault.enc"⟩ "pw" (List.replicate 50 0)
      (by decide)).2.2.2.2 (by decide)).2⟩

end vault
